import Mathlib

/-!
Verification development for the small monomorphising compiler
(`position.rs`, `ast.rs`, `parser.rs`, `ir.rs`, `types.rs`, `scope.rs`,
`compiler.rs`, `execute.rs`, `register_allocator.rs`).

Source text is modelled as `List Char`.  Character classes
(`is_numeric`, `is_alphabetic`, `is_whitespace`, `is_alphanumeric`) are
modelled on the ASCII range via the corresponding Lean `Char` predicates;
all inputs considered here are ASCII.  Recursive procedures that are not
structurally recursive in the source (the parser loop, the compiler, the
interpreter, the use-count traversal) take an explicit fuel argument; fuel
exhaustion is reported through a dedicated error constructor that the
original program cannot produce (it corresponds to non-termination).
-/

/-! ## position.rs -/

/-- `Position` from `position.rs`: a line number, a column number and the
remaining source text (`line` and `column` are `i32` in the source). -/
structure Pos where
  line : Int
  column : Int
  source : List Char
  deriving DecidableEq, Repr

/-- `Position::from_source`: the initial position of a source is line 1,
column 1. -/
def Pos.fromSource (source : List Char) : Pos := ⟨1, 1, source⟩

/-- `Position::next`: consume one character; a newline increments the line
and resets the column to 0, any other character increments the column. -/
def Pos.next (p : Pos) : Option (Pos × Char) :=
  match p.source with
  | [] => none
  | c :: rest =>
    if c = '\n' then some (⟨p.line + 1, 0, rest⟩, '\n')
    else some (⟨p.line, p.column + 1, rest⟩, c)

/-- `Position::len`. -/
def Pos.len (p : Pos) : Nat := p.source.length

/-- `Position::slice`: the substring between two positions over the same
source. -/
def Pos.slice (a b : Pos) : List Char := a.source.take (a.source.length - b.source.length)

/-- The recursion of `Position::next_while`, structurally on the
remaining source; the two branches of `Position::next` are inlined. -/
def nextWhileGo (cond : Char → Bool) (line column : Int) : List Char → Pos
  | [] => ⟨line, column, []⟩
  | c :: rest =>
    if cond c then
      nextWhileGo cond (if c = '\n' then line + 1 else line)
        (if c = '\n' then 0 else column + 1) rest
    else ⟨line, column, c :: rest⟩

/-- `Position::next_while`: advance while the predicate holds. -/
def Pos.nextWhile (cond : Char → Bool) (p : Pos) : Pos :=
  nextWhileGo cond p.line p.column p.source

/-! ## ast.rs -/

/-- `BinaryOp` from `ast.rs`. -/
inductive BinaryOp where
  | plus
  | bracket
  | singleEquals
  | elseOp
  deriving DecidableEq, Repr

mutual
/-- `Expr` from `ast.rs`, plus the `Struct` variant that `parser.rs`
constructs (`parser.rs` references `Expr::Struct`, which is absent from
the `ast.rs` in the tree; it is carried here so the parser can be
transcribed verbatim). -/
inductive Expr where
  | intLiteral (source : List Char)
  | boolLiteral (source : List Char)
  | ident (source : List Char)
  | tuple (exprs : List PExpr)
  | block (exprs : List PExpr) (last : PExpr)
  | func (name : Option (List Char)) (pattern : PExpr) (expr : PExpr)
  | binary (left : PExpr) (right : PExpr) (op : BinaryOp)
  | ifExpr (cond : PExpr) (conc : PExpr)
  | structExpr (body : PExpr)

/-- `Parsed<Expr>` from `ast.rs`: an expression node together with its
start and end positions. -/
inductive PExpr where
  | mk (startPos : Pos) (endPos : Pos) (node : Expr)
end

/-- `Parsed::get_node`. -/
def PExpr.node : PExpr → Expr
  | .mk _ _ n => n

/-- `Parsed::start`. -/
def PExpr.startPos : PExpr → Pos
  | .mk s _ _ => s

/-- `Parsed::end`. -/
def PExpr.endPos : PExpr → Pos
  | .mk _ e _ => e

/-- `Parsed::get_source`. -/
def PExpr.getSource (p : PExpr) : List Char := Pos.slice p.startPos p.endPos

/-- `Expr::new_binary`. -/
def Expr.newBinary (left right : PExpr) (op : BinaryOp) : PExpr :=
  .mk left.startPos right.endPos (.binary left right op)

/-- `Expr::new_tuple`: if the left node is already a `Tuple`, push the
right expression onto it (flattening); otherwise build a two-element
tuple. -/
def Expr.newTuple (left right : PExpr) : PExpr :=
  .mk left.startPos right.endPos
    (match left.node with
     | .tuple exprs => .tuple (exprs ++ [right])
     | _ => .tuple [left, right])

/-- `Expr::new_block`: if the left node is already a `Block`, append its
`last` to the prefix and make the right expression the new `last`. -/
def Expr.newBlock (left right : PExpr) : PExpr :=
  .mk left.startPos right.endPos
    (match left.node with
     | .block exprs last => .block (exprs ++ [last]) right
     | _ => .block [left] right)

/-! ## parser.rs -/

/-- `ParseErrorType` from `parser.rs`.  `fuel` is an embedding artifact
standing for non-termination of the unfueled original; it is never
produced on the runs proved about below. -/
inductive ParseErrorType where
  | expectedValue
  | expectedString (s : List Char)
  | fuel
  deriving DecidableEq, Repr

/-- `ParseError` from `parser.rs`. -/
structure ParseError where
  pos : Pos
  ty : ParseErrorType
  deriving DecidableEq, Repr

/-- `Prec` from `parser.rs`, in declaration order `Block < Tuple < Expr <
Sum` (the source derives `PartialOrd`). -/
inductive Prec where
  | block
  | tuple
  | expr
  | sum
  deriving DecidableEq, Repr

/-- The order on `Prec` induced by `derive(PartialOrd)`. -/
def Prec.val : Prec → Nat
  | .block => 0
  | .tuple => 1
  | .expr => 2
  | .sum => 3

/-- `char::is_numeric`, modelled on the ASCII range. -/
def chIsNumeric (c : Char) : Bool := c.isDigit

/-- `char::is_alphabetic`, modelled on the ASCII range. -/
def chIsAlphabetic (c : Char) : Bool := c.isAlpha

/-- `char::is_alphanumeric`, modelled on the ASCII range. -/
def chIsAlphanumeric (c : Char) : Bool := c.isAlphanum

/-- `char::is_whitespace`, modelled on the ASCII range. -/
def chIsWhitespace (c : Char) : Bool := c.isWhitespace

/-- `skip_spaces`: whitespace other than newline. -/
def skipSpaces (p : Pos) : Pos := Pos.nextWhile (fun ch => chIsWhitespace ch && ch != '\n') p

/-- `skip_lines`: any whitespace. -/
def skipLines (p : Pos) : Pos := Pos.nextWhile chIsWhitespace p

mutual
/-- `parse` from `parser.rs` (prefix part), fueled.  Match arms with
guards are rendered as an if-chain; the arm patterns are mutually
exclusive on the character, so the fall-through behaviour is identical. -/
def parse (fuel : Nat) (start : Pos) (prec : Prec) : Except ParseError PExpr :=
  match fuel with
  | 0 => .error ⟨start, .fuel⟩
  | fuel + 1 => do
    let left ←
      (match start.next with
       | none => .error ⟨start, .expectedValue⟩
       | some (pos, ch) =>
         if chIsNumeric ch then
           let e := Pos.nextWhile chIsNumeric pos
           .ok (.mk start e (.intLiteral (Pos.slice start e)))
         else if ch = '(' then do
           let expr ← parse fuel (skipLines pos) .tuple
           match expr.endPos.next with
           | some (e, c) =>
             if c = ')' then .ok (.mk start e expr.node)
             else .error ⟨skipLines expr.endPos, .expectedString [')']⟩
           | none => .error ⟨skipLines expr.endPos, .expectedString [')']⟩
         else if ch = '\x7b' then do
           let expr ← parse fuel (skipLines pos) .block
           match (skipLines expr.endPos).next with
           | some (e, c) =>
             if c = '\x7d' then .ok (.mk start e expr.node)
             else .error ⟨skipLines expr.endPos, .expectedString ['\x7d']⟩
           | none => .error ⟨skipLines expr.endPos, .expectedString ['\x7d']⟩
         else if chIsAlphabetic ch then
           let e := Pos.nextWhile chIsAlphanumeric pos
           let word := Pos.slice start e
           if word = ['f', 'n'] then
             let name : Option (List Char) × Pos :=
               match (skipLines e).next with
               | some (p2, c2) =>
                 if chIsAlphabetic c2 then
                   let endName := Pos.nextWhile chIsAlphanumeric p2
                   (some (Pos.slice (skipLines e) endName), endName)
                 else (none, skipLines e)
               | none => (none, skipLines e)
             match (skipLines name.2).next with
             | some (_, c3) =>
               if c3 = '(' then do
                 let pattern ← parse fuel (skipLines name.2) .expr
                 let body ← parse fuel (skipLines pattern.endPos) .expr
                 .ok (.mk start body.endPos (.func name.1 pattern body))
               else .error ⟨skipLines e, .expectedString ['(']⟩
             | none => .error ⟨skipLines e, .expectedString ['(']⟩
           else if word = ['s', 't', 'r', 'u', 'c', 't'] then
             match (skipLines e).next with
             | some (_, c3) =>
               if c3 = '\x7b' then do
                 let body ← parse fuel (skipLines e) .expr
                 .ok (.mk start body.endPos (.structExpr body))
               else .error ⟨skipLines e, .expectedString ['\x7b']⟩
             | none => .error ⟨skipLines e, .expectedString ['\x7b']⟩
           else if word = ['i', 'f'] then
             match (skipLines e).next with
             | some (_, c3) =>
               if c3 = '(' then do
                 let cond ← parse fuel (skipLines e) .expr
                 let conc ← parse fuel (skipLines cond.endPos) .expr
                 .ok (.mk start conc.endPos (.ifExpr cond conc))
               else .error ⟨skipLines e, .expectedString ['(']⟩
             | none => .error ⟨skipLines e, .expectedString ['(']⟩
           else if word = ['t', 'r', 'u', 'e'] then
             .ok (.mk start e (.boolLiteral word))
           else if word = ['f', 'a', 'l', 's', 'e'] then
             .ok (.mk start e (.boolLiteral word))
           else
             .ok (.mk start e (.ident word))
         else .error ⟨start, .expectedValue⟩
       : Except ParseError PExpr)
    parseLoop fuel left prec
termination_by structural fuel

/-- The infix `loop` of `parse`: repeatedly extend `left` with infix
constructs.  Note that the right-hand side of `+` is parsed at the same
precedence `prec` that was passed in (the source passes `prec`, not
`Prec::Sum`). -/
def parseLoop (fuel : Nat) (left : PExpr) (prec : Prec) : Except ParseError PExpr :=
  match fuel with
  | 0 => .error ⟨left.endPos, .fuel⟩
  | fuel + 1 =>
    let start := skipSpaces left.endPos
    match start.next with
    | some (pos, c) =>
      if c = '+' && decide (prec.val < Prec.val .sum) then do
        let right ← parse fuel (skipLines pos) prec
        parseLoop fuel (Expr.newBinary left right .plus) prec
      else if c = '=' && decide (prec.val ≤ Prec.val .expr) then do
        let right ← parse fuel (skipLines pos) .expr
        parseLoop fuel (Expr.newBinary left right .singleEquals) prec
      else if c = '(' then do
        let right ← parse fuel start .tuple
        parseLoop fuel (Expr.newBinary left right .bracket) prec
      else if c = ',' && decide (prec.val ≤ Prec.val .tuple) then do
        let right ← parse fuel (skipLines pos) .tuple
        parseLoop fuel (Expr.newTuple left right) prec
      else if chIsAlphabetic c then
        let e := Pos.nextWhile chIsAlphabetic start
        let keyword := Pos.slice start e
        if keyword = ['e', 'l', 's', 'e'] then do
          let right ← parse fuel (skipLines e) .expr
          parseLoop fuel (Expr.newBinary left right .elseOp) prec
        else .ok left
      else
        let pos2 := skipLines start
        match pos2.next with
        | some (_, ch) =>
          if ch != '\x7d' && decide (prec.val ≤ Prec.val .block) then do
            let right ← parse fuel pos2 .expr
            parseLoop fuel (Expr.newBlock left right) prec
          else .ok left
        | none => .ok left
    | none =>
      let pos2 := skipLines start
      match pos2.next with
      | some (_, ch) =>
        if ch != '\x7d' && decide (prec.val ≤ Prec.val .block) then do
          let right ← parse fuel pos2 .expr
          parseLoop fuel (Expr.newBlock left right) prec
        else .ok left
      | none => .ok left
termination_by structural fuel
end

/-- `parse_source`: parse from the initial position at precedence
`Block`. -/
def parseSource (fuel : Nat) (source : List Char) : Except ParseError PExpr :=
  parse fuel (Pos.fromSource source) .block

/-! ## ir.rs -/

/-- `Var` from `ir.rs`: a dense per-function variable id. -/
structure Var where
  id : Nat
  deriving DecidableEq, Repr

/-- `FunctionId` from `ir.rs`. -/
structure FunctionId where
  id : Nat
  deriving DecidableEq, Repr

/-- `BlockId` from `ir.rs`. -/
structure BlockId where
  id : Nat
  deriving DecidableEq, Repr

/-- `Instruction` from `ir.rs`. -/
inductive Instruction where
  | addInt (dest a b : Var)
  | constantInt (dest : Var) (constant : Int)
  | phi (cond a b dest : Var)
  | call (function : FunctionId) (args : List Var) (returns : List Var)
  deriving DecidableEq, Repr

/-- `ExitInstruction` from `ir.rs`. -/
inductive ExitInstruction where
  | branch (block : BlockId)
  | conditionalBranch (cond : Var) (block1 block2 : BlockId)
  | ret
  deriving DecidableEq, Repr

/-- `Block` from `ir.rs`: straight-line instructions, an exit, and the
slot index the block was registered at. -/
structure Block where
  insts : List Instruction
  exit : ExitInstruction
  id : Nat
  deriving DecidableEq, Repr

/-- `Function` from `ir.rs`. -/
structure IRFunction where
  params : List Var
  returns : List Var
  variableCount : Nat
  blocks : List Block
  deriving DecidableEq, Repr

/-- `Program` from `ir.rs`. -/
structure Program where
  functions : List IRFunction
  deriving DecidableEq, Repr

/-- `Program::new`. -/
def Program.new : Program := ⟨[]⟩

/-- `Program::add_function`: append and hand back the index. -/
def Program.addFunction (p : Program) (f : IRFunction) : FunctionId × Program :=
  (⟨p.functions.length⟩, ⟨p.functions ++ [f]⟩)

/-- `Function::new`. -/
def IRFunction.new : IRFunction := ⟨[], [], 0, []⟩

/-- `Function::new_local_variable`. -/
def IRFunction.newLocalVariable (f : IRFunction) : Var × IRFunction :=
  (⟨f.variableCount⟩, { f with variableCount := f.variableCount + 1 })

/-- `Function::new_parameter`. -/
def IRFunction.newParameter (f : IRFunction) : Var × IRFunction :=
  let (v, f') := f.newLocalVariable
  (v, { f' with params := f'.params ++ [v] })

/-- `Function::return_var`. -/
def IRFunction.returnVar (f : IRFunction) (v : Var) : IRFunction :=
  { f with returns := f.returns ++ [v] }

/-- `Function::new_block`: register a fresh block slot (with a `Return`
exit placeholder) and hand back the open block. -/
def IRFunction.newBlock (f : IRFunction) : Block × IRFunction :=
  let b : Block := ⟨[], .ret, f.blocks.length⟩
  (b, { f with blocks := f.blocks ++ [b] })

/-- `Function::submit_block`: store the block back into its slot. -/
def IRFunction.submitBlock (f : IRFunction) (b : Block) : IRFunction :=
  { f with blocks := f.blocks.set b.id b }

/-- `Function::get_block` (`self.blocks[id.id]`; `none` models the
index-out-of-bounds panic). -/
def IRFunction.getBlock (f : IRFunction) (id : BlockId) : Option Block :=
  f.blocks.get? id.id

/-- `BlockId::main_block`. -/
def BlockId.mainBlock : BlockId := ⟨0⟩

/-- `Block::get_id`. -/
def Block.getId (b : Block) : BlockId := ⟨b.id⟩

/-- `Block::add_int`: allocate a destination, append the instruction. -/
def Block.addInt (b : Block) (x y : Var) (f : IRFunction) : Var × Block × IRFunction :=
  let (dest, f') := f.newLocalVariable
  (dest, { b with insts := b.insts ++ [.addInt dest x y] }, f')

/-- `Block::constant_int`. -/
def Block.constantInt (b : Block) (k : Int) (f : IRFunction) : Var × Block × IRFunction :=
  let (dest, f') := f.newLocalVariable
  (dest, { b with insts := b.insts ++ [.constantInt dest k] }, f')

/-- `Block::phi`. -/
def Block.phi (b : Block) (cond x y : Var) (f : IRFunction) : Var × Block × IRFunction :=
  let (dest, f') := f.newLocalVariable
  (dest, { b with insts := b.insts ++ [.phi cond x y dest] }, f')

/-- `Block::call`: allocate `returnCount` fresh locals (the source loop
pushes them one at a time, which yields exactly the ids
`variableCount .. variableCount + returnCount - 1` in order) and append
the call. -/
def Block.call (b : Block) (target : FunctionId) (args : List Var) (returnCount : Nat)
    (f : IRFunction) : List Var × Block × IRFunction :=
  let rets := (List.range returnCount).map (fun i => Var.mk (f.variableCount + i))
  (rets, { b with insts := b.insts ++ [.call target args rets] },
   { f with variableCount := f.variableCount + returnCount })

/-- Modelled from the spec (§4.D, §4.G): `compiler.rs` calls
`Block::ret()` with no argument, `Block::branch_if(cond, target)` and
`Block::branch(target)`, none of which exist in the `ir.rs` in the tree
(whose terminators consume the block and take the function).  They are
modelled as installing an exit in place.  `branch_if`'s false-target is
not recoverable from the sources, so the target is repeated; no theorem
below depends on the exits of compiled blocks. -/
def Block.setRet (b : Block) : Block := { b with exit := .ret }

/-- See `Block.setRet`: `compiler.rs`'s `Block::branch_if(cond, target)`,
modelled from the spec. -/
def Block.branchIf (b : Block) (cond : Var) (target : BlockId) : Block :=
  { b with exit := .conditionalBranch cond target target }

/-- See `Block.setRet`: `compiler.rs`'s `Block::branch(target)`. -/
def Block.branch (b : Block) (target : BlockId) : Block :=
  { b with exit := .branch target }

/-! ## compiler.rs error values -/

/-- `CompileErrorType` from `compiler.rs`. -/
inductive CompileErrorType where
  | typeError
  | undefinedVariable
  deriving DecidableEq, Repr

/-- `CompileError` from `compiler.rs`: an error kind located at a source
span. -/
structure CompileError where
  source : List Char
  ty : CompileErrorType
  deriving DecidableEq, Repr

/-- Abnormal outcomes of the embedded compiler.  `compileError` carries
the `CompileError` values the source returns through `Result`; `unimpl`
models a panic (`unimplemented!` in `match_pattern` and `Type::merge`,
`unwrap` of integer-literal parsing, out-of-bounds slicing); `fuel` is
the embedding artifact standing for non-termination. -/
inductive CErr where
  | compileError (e : CompileError)
  | unimpl
  | fuel
  deriving DecidableEq, Repr

/-! ## types.rs -/

/-- `Type` from `types.rs`.  A `Func` holds its pattern and body ASTs and
the identity of its shared, interior-mutable implementation list
(`Rc<RefCell<Vec<Implementation>>>`), modelled as an index `impls` into a
store of implementation lists threaded through compilation. -/
inductive Ty where
  | int (v : Var)
  | bool (v : Var)
  | maybe (v : Var) (inner : Ty)
  | tuple (types : List Ty)
  | func (pattern : PExpr) (expr : PExpr) (impls : Nat)

/-- `Implementation` from `types.rs`. -/
structure Implementation where
  paramTy : Ty
  returnTy : Ty
  function : FunctionId

mutual
/-- `impl PartialEq for Type` from `types.rs`: `Int` matches `Int`,
`Bool` matches `Bool`, `Tuple`s of equal length compare component-wise,
and every other pair — including `Maybe` against `Maybe` and `Func`
against `Func` — falls to the catch-all arm and yields `false`. -/
def tyBeq : Ty → Ty → Bool
  | .int _, .int _ => true
  | .bool _, .bool _ => true
  | .tuple ts, .tuple us => if ts.length = us.length then tyBeqList ts us else false
  | _, _ => false

/-- The component loop of `PartialEq for Type` (the source zips the two
lists under the equal-length guard and fails on the first mismatch). -/
def tyBeqList : List Ty → List Ty → Bool
  | t :: ts, u :: us => if tyBeq t u then tyBeqList ts us else false
  | _, _ => true
end

mutual
/-- `Type::add_vars_to_vec`: push the carried variables in pre-order. -/
def Ty.addVarsToVec : Ty → List Var → List Var
  | .int v, m => m ++ [v]
  | .bool v, m => m ++ [v]
  | .maybe v t, m => t.addVarsToVec (m ++ [v])
  | .tuple ts, m => Ty.addVarsList ts m
  | .func _ _ _, m => m

/-- The tuple loop of `Type::add_vars_to_vec`. -/
def Ty.addVarsList : List Ty → List Var → List Var
  | [], m => m
  | t :: ts, m => Ty.addVarsList ts (t.addVarsToVec m)
end

/-- `Type::get_used_vars`. -/
def Ty.getUsedVars (t : Ty) : List Var := t.addVarsToVec []

mutual
/-- `Type::size`: the number of runtime variables the type carries. -/
def Ty.size : Ty → Nat
  | .int _ => 1
  | .bool _ => 1
  | .maybe _ t => 1 + t.size
  | .tuple ts => Ty.sizeList ts
  | .func _ _ _ => 0

/-- The sum in the `Tuple` arm of `Type::size`. -/
def Ty.sizeList : List Ty → Nat
  | [] => 0
  | t :: ts => t.size + Ty.sizeList ts
end

mutual
/-- `Type::map_to`: rebuild the type with its carried variables replaced
by a prefix of `vs`, pre-order.  `none` models the index/slice panics of
the source (`vars[0]` on an empty slice, `&vars[..size]` with `size`
longer than the slice). -/
def Ty.mapTo : Ty → List Var → Option Ty
  | .int _, v :: _ => some (.int v)
  | .int _, [] => none
  | .bool _, v :: _ => some (.bool v)
  | .bool _, [] => none
  | .maybe _ t, v :: rest => (t.mapTo rest).map (fun u => .maybe v u)
  | .maybe _ _, [] => none
  | .tuple ts, vs => (Ty.mapToList ts vs).map .tuple
  | .func p e i, _ => some (.func p e i)

/-- The tuple loop of `Type::map_to`: each component consumes a
`size`-sized slice of the variable list. -/
def Ty.mapToList : List Ty → List Var → Option (List Ty)
  | [], _ => some []
  | t :: ts, vs =>
    if t.size ≤ vs.length then
      match t.mapTo (vs.take t.size), Ty.mapToList ts (vs.drop t.size) with
      | some u, some us => some (u :: us)
      | _, _ => none
    else none
end

/-- `Type::as_parameter_ty`: allocate `size` fresh parameters (the
source loop calls `new_parameter` `size` times, yielding the ids
`variableCount .. variableCount + size - 1` in order) and rename the
type onto them. -/
def Ty.asParameterTy (t : Ty) (f : IRFunction) : Option Ty × IRFunction :=
  let n := t.size
  let vars := (List.range n).map (fun i => Var.mk (f.variableCount + i))
  (t.mapTo vars,
   { f with variableCount := f.variableCount + n, params := f.params ++ vars })

/-- `Type::return_ty`: register the carried variables as the function's
return variables, in order. -/
def Ty.returnTy (t : Ty) (f : IRFunction) : IRFunction :=
  t.getUsedVars.foldl (fun acc v => acc.returnVar v) f

mutual
/-- `Type::merge`: component-wise `Phi` selects over two types of the
same shape; the catch-all arm is `unimplemented!`. -/
def Ty.merge (cond : Var) (a b : Ty) (f : IRFunction) (blk : Block) :
    Except CErr (Ty × IRFunction × Block) :=
  match a, b with
  | .int x, .int y =>
    let (d, blk', f') := blk.phi cond x y f
    .ok (.int d, f', blk')
  | .bool x, .bool y =>
    let (d, blk', f') := blk.phi cond x y f
    .ok (.bool d, f', blk')
  | .tuple ts, .tuple us =>
    if ts.length = us.length then do
      let (l, f', blk') ← Ty.mergeList cond ts us f blk
      .ok (.tuple l, f', blk')
    else .error .unimpl
  | _, _ => .error .unimpl

/-- The tuple loop of `Type::merge`. -/
def Ty.mergeList (cond : Var) (ts us : List Ty) (f : IRFunction) (blk : Block) :
    Except CErr (List Ty × IRFunction × Block) :=
  match ts, us with
  | t :: ts', u :: us' => do
    let (v, f', blk') ← Ty.merge cond t u f blk
    let (l, f'', blk'') ← Ty.mergeList cond ts' us' f' blk'
    .ok (v :: l, f'', blk'')
  | _, _ => .ok ([], f, blk)
end

/-! ## scope.rs -/

/-- `Scope` from `scope.rs`: the chain of `ScopeNode::Definition` frames,
innermost first.  The compiler never clones a `Scope`, so the chain is
modelled as a plain list. -/
def Scope := List (List Char × Ty)

/-- `Scope::new`. -/
def Scope.new : Scope := []

/-- `ScopeNode::get`: first frame with the name wins. -/
def Scope.get : Scope → List Char → Option Ty
  | [], _ => none
  | (n, t) :: rest, s => if n = s then some t else Scope.get rest s

/-- `ScopeNode::assign`: overwrite the first frame with the name, `none`
when no frame matches. -/
def Scope.assignNode : Scope → List Char → Ty → Option Scope
  | [], _, _ => none
  | (n, t) :: rest, s, ty =>
    if n = s then some ((n, ty) :: rest)
    else (Scope.assignNode rest s ty).map ((n, t) :: ·)

/-- `Scope::assign`: overwrite in place anywhere in the chain, else push
a new frame on top. -/
def Scope.assign (sc : Scope) (n : List Char) (ty : Ty) : Scope :=
  match Scope.assignNode sc n ty with
  | some sc' => sc'
  | none => (n, ty) :: sc

/-! ## compiler.rs -/

/-- `str::parse::<i32>` applied to an integer-literal lexeme (the parser
produces digit runs): `none` on an empty/non-digit string and on i32
overflow, which `compile` turns into a panic via `unwrap`. -/
def parseI32 (s : List Char) : Option Int :=
  if s.isEmpty then none
  else if s.all chIsNumeric then
    let n := s.foldl (fun acc c => acc * 10 + (c.toNat - 48)) 0
    if n ≤ 2147483647 then some (Int.ofNat n) else none
  else none

/-- The mutable state threaded through `compile`: the program being
built, the current function, the current block cursor, and the store of
shared implementation lists (one entry per `Rc<RefCell<Vec<Implementation>>>`
cell ever created). -/
structure CompSt where
  program : Program
  function : IRFunction
  block : Block
  store : List (List Implementation)

mutual
/-- `match_pattern` from `compiler.rs`: an identifier binds the whole
type, a tuple pattern recurses component-wise against a tuple type of
identical arity (anything else at a tuple pattern is a `TypeError` at
the pattern's span), and every other pattern form is `unimplemented!`
(modelled by `CErr.unimpl`). -/
def matchPattern (p : PExpr) (ty : Ty) (scope : Scope) : Except CErr Scope :=
  match p with
  | .mk _ _ (.ident src) => .ok (scope.assign src ty)
  | .mk s e (.tuple exprs) =>
    (match ty with
     | .tuple types =>
       if types.length = exprs.length then matchPatternList exprs types scope
       else .error (.compileError ⟨Pos.slice s e, .typeError⟩)
     | _ => .error (.compileError ⟨Pos.slice s e, .typeError⟩))
  | _ => .error .unimpl

/-- The component loop of `match_pattern` (the source zips the types
with the patterns and threads the scope left to right). -/
def matchPatternList (ps : List PExpr) (tys : List Ty) (scope : Scope) : Except CErr Scope :=
  match ps, tys with
  | p :: ps', t :: ts' => do
    let scope' ← matchPattern p t scope
    matchPatternList ps' ts' scope'
  | _, _ => .ok scope
end

/-- `call_function` from `compiler.rs`: emit a `Call` with the argument
type's variables as arguments and `size(return_ty)` fresh destinations,
and rename the implementation's return type onto the destinations. -/
def callFunction (imp : Implementation) (argTy : Ty) (st : CompSt) : Except CErr (Ty × CompSt) :=
  let (rets, blk, fn) := st.block.call imp.function argTy.getUsedVars imp.returnTy.size st.function
  match imp.returnTy.mapTo rets with
  | some retTy => .ok (retTy, { st with block := blk, function := fn })
  | none => .error .unimpl

mutual
/-- `compile` from `compiler.rs`, fueled: elaborate one AST node against
the scope and the threaded state, returning the node's type.  Each arm
transcribes the corresponding arm of the source; `Expr::Struct` (which
the `compiler.rs` match does not cover) is a panic. -/
def compile (fuel : Nat) (e : PExpr) (scope : Scope) (st : CompSt) :
    Except CErr (Ty × Scope × CompSt) :=
  match fuel with
  | 0 => .error .fuel
  | fuel + 1 =>
    match e with
    | .mk es ee node =>
      match node with
      | .intLiteral src =>
        (match parseI32 src with
         | some k =>
           let (d, blk, fn) := st.block.constantInt k st.function
           .ok (.int d, scope, { st with block := blk, function := fn })
         | none => .error .unimpl)
      | .boolLiteral src =>
        let (d, blk, fn) :=
          st.block.constantInt (if src = ['t', 'r', 'u', 'e'] then 1 else 0) st.function
        .ok (.bool d, scope, { st with block := blk, function := fn })
      | .ident src =>
        (match scope.get src with
         | some ty => .ok (ty, scope, st)
         | none => .error (.compileError ⟨Pos.slice es ee, .undefinedVariable⟩))
      | .tuple exprs => do
        let (types, scope', st') ← compileList fuel exprs scope st
        .ok (.tuple types, scope', st')
      | .block exprs last => do
        let (scope', st') ← compileSeq fuel exprs scope st
        compile fuel last scope' st'
      | .func name pattern body =>
        let cell := st.store.length
        let st' := { st with store := st.store ++ [[]] }
        let ty := Ty.func pattern body cell
        let scope' := match name with
          | some n => scope.assign n ty
          | none => scope
        .ok (ty, scope', st')
      | .ifExpr cond conc => do
        let (condTy, scope1, st1) ← compile fuel cond scope st
        match condTy with
        | .bool condV =>
          let (condB, fn1) := st1.function.newBlock
          let (exitB, fn2) := fn1.newBlock
          let (concTy, scope2, st2) ← compile fuel conc scope1
            { st1 with function := fn2, block := condB }
          let b1 := st1.block.branchIf condV st2.block.getId
          let cb := st2.block.branch exitB.getId
          let b2 := b1.branch exitB.getId
          let fn3 := st2.function.submitBlock b2
          let fn4 := fn3.submitBlock cb
          .ok (.maybe condV concTy, scope2, { st2 with function := fn4, block := exitB })
        | _ => .error (.compileError ⟨Pos.slice es ee, .typeError⟩)
      | .binary left right op =>
        (match op with
         | .plus => do
           let (lt, scope1, st1) ← compile fuel left scope st
           let (rt, scope2, st2) ← compile fuel right scope1 st1
           match lt, rt with
           | .int a, .int b =>
             let (d, blk, fn) := st2.block.addInt a b st2.function
             .ok (.int d, scope2, { st2 with block := blk, function := fn })
           | _, _ => .error (.compileError ⟨Pos.slice es ee, .typeError⟩)
         | .bracket => do
           let (lt, scope1, st1) ← compile fuel left scope st
           match lt with
           | .func pattern body cell => do
             let (argTy, scope2, st2) ← compile fuel right scope1 st1
             match (st2.store.getD cell []).find? (fun imp => tyBeq imp.paramTy argTy) with
             | some imp => do
               let (retTy, st3) ← callFunction imp argTy st2
               .ok (retTy, scope2, st3)
             | none =>
               let nf0 := IRFunction.new
               let (nb0, nf1) := nf0.newBlock
               let (pOpt, nf2) := argTy.asParameterTy nf1
               match pOpt with
               | none => .error .unimpl
               | some paramTy => do
                 let fnScope ← matchPattern pattern paramTy Scope.new
                 let (returnTy, _, stB) ← compile fuel body fnScope
                   { program := st2.program, store := st2.store, function := nf2, block := nb0 }
                 let nf3 := returnTy.returnTy stB.function
                 let nb1 := stB.block.setRet
                 let nf4 := nf3.submitBlock nb1
                 let (nfid, prog') := stB.program.addFunction nf4
                 let imp : Implementation := ⟨paramTy, returnTy, nfid⟩
                 let (retTy, st3) ← callFunction imp argTy
                   { program := prog', store := stB.store, function := st2.function, block := st2.block }
                 let st4 := { st3 with store := st3.store.set cell (st3.store.getD cell [] ++ [imp]) }
                 .ok (retTy, scope2, st4)
           | _ => .error (.compileError ⟨Pos.slice es ee, .typeError⟩)
         | .singleEquals => do
           let (ty, scope1, st1) ← compile fuel right scope st
           let scope2 ← matchPattern left ty scope1
           .ok (ty, scope2, st1)
         | .elseOp => do
           let (lt, scope1, st1) ← compile fuel left scope st
           match lt with
           | .maybe tag inner =>
             let (exitB, fn1) := st1.function.newBlock
             let b1 := st1.block.branchIf tag exitB.getId
             let (concTy, scope2, st2) ← compile fuel right scope1
               { st1 with function := fn1, block := b1 }
             let b2 := st2.block.branch exitB.getId
             let fn2 := st2.function.submitBlock b2
             match Ty.merge tag inner concTy fn2 exitB with
             | .ok (mty, fn3, blk3) =>
               .ok (mty, scope2, { st2 with function := fn3, block := blk3 })
             | .error err => .error err
           | _ => .error (.compileError ⟨Pos.slice es ee, .typeError⟩))
      | .structExpr _ => .error .unimpl

/-- The element loop of the `Expr::Tuple` arm of `compile`. -/
def compileList (fuel : Nat) (es : List PExpr) (scope : Scope) (st : CompSt) :
    Except CErr (List Ty × Scope × CompSt) :=
  match fuel with
  | 0 => .error .fuel
  | fuel + 1 =>
    match es with
    | [] => .ok ([], scope, st)
    | e :: rest => do
      let (t, scope1, st1) ← compile fuel e scope st
      let (ts, scope2, st2) ← compileList fuel rest scope1 st1
      .ok (t :: ts, scope2, st2)

/-- The prefix loop of the `Expr::Block` arm of `compile` (results are
discarded, effects on the scope and the state are kept). -/
def compileSeq (fuel : Nat) (es : List PExpr) (scope : Scope) (st : CompSt) :
    Except CErr (Scope × CompSt) :=
  match fuel with
  | 0 => .error .fuel
  | fuel + 1 =>
    match es with
    | [] => .ok (scope, st)
    | e :: rest => do
      let (_, scope1, st1) ← compile fuel e scope st
      compileSeq fuel rest scope1 st1
end

/-- The initial compiler state, as set up by `main.rs`: an empty program,
a fresh function whose entry block is the initial cursor, and no
implementation cells. -/
def CompSt.init : CompSt :=
  let (b0, f0) := IRFunction.new.newBlock
  ⟨Program.new, f0, b0, []⟩

/-! ## execute.rs

`execute.rs` references several items that are absent from the `ir.rs`
in the tree (`Program::get_variable_count`, `Program::get_function`,
`BlockId::entry`, `Function::get_params`, `Block::get_exit_instruction`);
the file does not compile against that `ir.rs`.  The missing accessors
are modelled below in the only way consistent with their call sites, and
marked as such. -/

/-- Modelled from the spec: `Program::get_variable_count`, used by
`VirtualMachine::new` to size the single register file, is absent from
`ir.rs`.  It is modelled as the sum of the functions' variable counts
(any bound that keeps every per-function id in range gives the same
behaviour, because variables are indexed by their per-function dense id
into the one shared file). -/
def Program.getVariableCount (p : Program) : Nat :=
  (p.functions.map (·.variableCount)).sum

/-- `Program::get_function`, as used by `execute.rs`/`main.rs` (absent
from `ir.rs`; `none` models the index panic). -/
def Program.getFunction (p : Program) (id : FunctionId) : Option IRFunction :=
  p.functions.get? id.id

/-- `BlockId::entry`, as used by `execute.rs` (absent from `ir.rs`,
whose spelling is `main_block`; the spec fixes block 0 as the entry). -/
def BlockId.entry : BlockId := ⟨0⟩

/-- `VirtualMachine::get_register`: read a slot of the shared register
file (out-of-range is the panic path). -/
def getRegister (regs : List Int) (r : Var) : Int := regs.getD r.id 0

/-- `VirtualMachine::set_register`: write a slot of the shared register
file (`List.set` is a no-op out of range, which is the panic path). -/
def setRegister (regs : List Int) (r : Var) (v : Int) : List Int := regs.set r.id v

/-- Two's-complement wrap-around of `i32` addition (the release-mode
semantics of `a + b` in `execute.rs`). -/
def wrap32 (n : Int) : Int := (n + 2147483648) % 4294967296 - 2147483648

mutual
/-- One instruction of `VirtualMachine::execute`.  The `Call` arm copies
the argument registers into the callee's parameter registers, runs the
callee on the same register file, then copies the callee's return
registers into the call's `returns` — all reads observe earlier writes,
exactly as the source's sequential loops do. -/
def execInst (fuel : Nat) (prog : Program) (regs : List Int) (inst : Instruction) :
    Option (List Int) :=
  match fuel with
  | 0 => none
  | fuel + 1 =>
    match inst with
    | .addInt dest a b =>
      some (setRegister regs dest (wrap32 (getRegister regs a + getRegister regs b)))
    | .constantInt dest k => some (setRegister regs dest k)
    | .phi cond a b dest =>
      some (setRegister regs dest
        (if getRegister regs cond ≠ 0 then getRegister regs a else getRegister regs b))
    | .call fid args rets =>
      match prog.getFunction fid with
      | none => none
      | some f =>
        let regs1 := (f.params.zip args).foldl
          (fun rs pa => setRegister rs pa.1 (getRegister rs pa.2)) regs
        match execute fuel prog f regs1 with
        | none => none
        | some regs2 =>
          some ((f.returns.zip rets).foldl
            (fun rs rv => setRegister rs rv.2 (getRegister rs rv.1)) regs2)
termination_by structural fuel

/-- The instruction loop over a block's straight-line part. -/
def execInsts (fuel : Nat) (prog : Program) (regs : List Int)
    (insts : List Instruction) : Option (List Int) :=
  match fuel with
  | 0 => none
  | fuel + 1 =>
    match insts with
    | [] => some regs
    | inst :: rest =>
      match execInst fuel prog regs inst with
      | none => none
      | some regs' => execInsts fuel prog regs' rest
termination_by structural fuel

/-- The block loop of `VirtualMachine::execute`: run the instructions,
then follow the exit until a `Return`. -/
def execBlock (fuel : Nat) (prog : Program) (f : IRFunction) (b : Block) (regs : List Int) :
    Option (List Int) :=
  match fuel with
  | 0 => none
  | fuel + 1 =>
    match execInsts fuel prog regs b.insts with
    | none => none
    | some regs' =>
      match b.exit with
      | .branch bid =>
        (match f.getBlock bid with
         | some nb => execBlock fuel prog f nb regs'
         | none => none)
      | .conditionalBranch cond b1 b2 =>
        (match f.getBlock (if getRegister regs' cond ≠ 0 then b1 else b2) with
         | some nb => execBlock fuel prog f nb regs'
         | none => none)
      | .ret => some regs'
termination_by structural fuel

/-- `VirtualMachine::execute`: run a function from its entry block on
the given (shared) register file. -/
def execute (fuel : Nat) (prog : Program) (f : IRFunction) (regs : List Int) :
    Option (List Int) :=
  match fuel with
  | 0 => none
  | fuel + 1 =>
    match f.getBlock BlockId.entry with
    | some b => execBlock fuel prog f b regs
    | none => none
termination_by structural fuel
end

/-! ## register_allocator.rs (use counting) -/

/-- One `uses[v.get_id()] += 1` step (`List.set` is a no-op out of
range, which is the index-panic path of the source). -/
def incUse (u : List Int) (v : Var) : List Int := u.set v.id (u.getD v.id 0 + 1)

/-- The per-instruction body of `count_uses_in_block`'s loop: bump the
use count of every operand read (`AddInt` inputs, all three `Phi`
inputs, `Call` args). -/
def countInstUses (uses : List Int) : Instruction → List Int
  | .addInt _ a b => incUse (incUse uses a) b
  | .constantInt _ _ => uses
  | .phi cond a b _ => incUse (incUse (incUse uses cond) a) b
  | .call _ args _ => args.foldl incUse uses

/-- `count_uses_in_block`: bump the use counts over the instructions,
count the `cond` of a `ConditionalBranch` exit, and push the exit's
successors onto the queue. -/
def countUsesInBlock (b : Block) (uses : List Int) (queue : List BlockId) :
    List Int × List BlockId :=
  let u := b.insts.foldl countInstUses uses
  match b.exit with
  | .branch bid => (u, queue ++ [bid])
  | .conditionalBranch cond b1 b2 => (incUse u cond, queue ++ [b1, b2])
  | .ret => (u, queue)

/-- The `while let Some(block_id) = queue.pop()` loop of
`count_uses_in_function` (`Vec::pop` takes from the back; there is no
visited set). -/
def countUsesLoop (fuel : Nat) (f : IRFunction) (uses : List Int) (queue : List BlockId) :
    Option (List Int) :=
  match fuel with
  | 0 => none
  | fuel + 1 =>
    match queue.getLast? with
    | none => some uses
    | some bid =>
      match f.getBlock bid with
      | none => none
      | some b =>
        let (u', q') := countUsesInBlock b uses queue.dropLast
        countUsesLoop fuel f u' q'

/-- `count_uses_in_function`: traverse from the entry block, then add
one use per occurrence of a variable in the return list. -/
def countUsesInFunction (fuel : Nat) (f : IRFunction) : Option (List Int) :=
  match countUsesLoop fuel f (List.replicate f.variableCount 0) [BlockId.mainBlock] with
  | some u => some (f.returns.foldl incUse u)
  | none => none

/-! ## Spec-side definitions

These definitions follow the specification's words (not the source) and
exist only to *state* claims that compare the source's behaviour against
the spec; each is marked as such. -/

mutual
/-- Spec-side, from the glossary: "Shape — the structural skeleton of a
type, disregarding the identities of its carried IR variables."  Two
`Func`s carry no variables, so as skeletons they agree. -/
def sameShape : Ty → Ty → Bool
  | .int _, .int _ => true
  | .bool _, .bool _ => true
  | .maybe _ a, .maybe _ b => sameShape a b
  | .tuple ts, .tuple us => if ts.length = us.length then sameShapeList ts us else false
  | .func _ _ _, .func _ _ _ => true
  | _, _ => false

/-- Component-wise `sameShape` (spec-side). -/
def sameShapeList : List Ty → List Ty → Bool
  | t :: ts, u :: us => if sameShape t u then sameShapeList ts us else false
  | _, _ => true
end

mutual
/-- A type built only from `Int`, `Bool` and `Tuple` — the fragment on
which the source's `PartialEq for Type` has explicit arms. -/
def mfFree : Ty → Bool
  | .int _ => true
  | .bool _ => true
  | .maybe _ _ => false
  | .func _ _ _ => false
  | .tuple ts => mfFreeList ts

/-- `mfFree` over a list of component types. -/
def mfFreeList : List Ty → Bool
  | [] => true
  | t :: ts => mfFree t && mfFreeList ts
end

/-! ## Shared lemmas about the type operations -/

mutual
theorem addVarsToVec_acc : ∀ (t : Ty) (m : List Var),
    Ty.addVarsToVec t m = m ++ Ty.addVarsToVec t []
  | .int v, m => by simp [Ty.addVarsToVec]
  | .bool v, m => by simp [Ty.addVarsToVec]
  | .maybe v t, m => by
    simp only [Ty.addVarsToVec]
    rw [addVarsToVec_acc t (m ++ [v]), addVarsToVec_acc t ([] ++ [v])]
    simp
  | .tuple ts, m => by
    simp only [Ty.addVarsToVec]
    exact addVarsList_acc ts m
  | .func p e i, m => by simp [Ty.addVarsToVec]

theorem addVarsList_acc : ∀ (ts : List Ty) (m : List Var),
    Ty.addVarsList ts m = m ++ Ty.addVarsList ts []
  | [], m => by simp [Ty.addVarsList]
  | t :: ts, m => by
    simp only [Ty.addVarsList]
    rw [addVarsList_acc ts (Ty.addVarsToVec t m), addVarsToVec_acc t m,
      addVarsList_acc ts (Ty.addVarsToVec t []), List.append_assoc]
end

mutual
theorem getUsedVars_length : ∀ t : Ty, (Ty.addVarsToVec t []).length = t.size
  | .int v => by simp [Ty.addVarsToVec, Ty.size]
  | .bool v => by simp [Ty.addVarsToVec, Ty.size]
  | .maybe v t => by
    simp only [Ty.addVarsToVec, Ty.size]
    rw [addVarsToVec_acc t ([] ++ [v])]
    simp [getUsedVars_length t]
    omega
  | .tuple ts => by
    simp only [Ty.addVarsToVec, Ty.size]
    exact getUsedVarsList_length ts
  | .func p e i => by simp [Ty.addVarsToVec, Ty.size]

theorem getUsedVarsList_length : ∀ ts : List Ty,
    (Ty.addVarsList ts []).length = Ty.sizeList ts
  | [] => by simp [Ty.addVarsList, Ty.sizeList]
  | t :: ts => by
    simp only [Ty.addVarsList, Ty.sizeList]
    rw [addVarsList_acc ts (Ty.addVarsToVec t [])]
    simp [getUsedVars_length t, getUsedVarsList_length ts]
end

mutual
theorem mapTo_self : ∀ t : Ty, Ty.mapTo t (Ty.addVarsToVec t []) = some t
  | .int v => by simp [Ty.addVarsToVec, Ty.mapTo]
  | .bool v => by simp [Ty.addVarsToVec, Ty.mapTo]
  | .maybe v t => by
    simp only [Ty.addVarsToVec]
    rw [addVarsToVec_acc t ([] ++ [v])]
    simp only [List.nil_append, List.singleton_append, List.append_nil, List.append_eq,
      Ty.mapTo]
    rw [mapTo_self t]
    rfl
  | .tuple ts => by
    simp only [Ty.addVarsToVec, Ty.mapTo]
    rw [mapToList_self ts]
    rfl
  | .func p e i => by simp [Ty.addVarsToVec, Ty.mapTo]

theorem mapToList_self : ∀ ts : List Ty,
    Ty.mapToList ts (Ty.addVarsList ts []) = some ts
  | [] => by simp [Ty.addVarsList, Ty.mapToList]
  | t :: ts => by
    simp only [Ty.addVarsList]
    rw [addVarsList_acc ts (Ty.addVarsToVec t [])]
    simp only [Ty.mapToList]
    have hlen : (Ty.addVarsToVec t []).length = t.size := getUsedVars_length t
    have hle : t.size ≤ (Ty.addVarsToVec t [] ++ Ty.addVarsList ts []).length := by
      simp [hlen]
    rw [if_pos hle]
    have htake : (Ty.addVarsToVec t [] ++ Ty.addVarsList ts []).take t.size
        = Ty.addVarsToVec t [] := by
      rw [← hlen]
      exact List.take_left _ _
    have hdrop : (Ty.addVarsToVec t [] ++ Ty.addVarsList ts []).drop t.size
        = Ty.addVarsList ts [] := by
      rw [← hlen]
      exact List.drop_left _ _
    rw [htake, hdrop, mapTo_self t, mapToList_self ts]
end

mutual
theorem tyBeq_eq : ∀ t u : Ty, tyBeq t u = (sameShape t u && mfFree t)
  | .int a, u => by cases u <;> simp [tyBeq, sameShape, mfFree]
  | .bool a, u => by cases u <;> simp [tyBeq, sameShape, mfFree]
  | .maybe a t, u => by cases u <;> simp [tyBeq, sameShape, mfFree]
  | .func p e i, u => by cases u <;> simp [tyBeq, sameShape, mfFree]
  | .tuple ts, u => by
    cases u <;> simp [tyBeq, sameShape, mfFree]
    case tuple us =>
      by_cases h : ts.length = us.length
      · simp only [h, if_true]
        exact tyBeqList_eq ts us h
      · simp [h]

theorem tyBeqList_eq : ∀ (ts us : List Ty), ts.length = us.length →
    tyBeqList ts us = (sameShapeList ts us && mfFreeList ts)
  | [], [], _ => by simp [tyBeqList, sameShapeList, mfFreeList]
  | [], u :: us, h => by simp at h
  | t :: ts, [], h => by simp at h
  | t :: ts, u :: us, h => by
    simp only [tyBeqList, sameShapeList, mfFreeList]
    rw [tyBeq_eq t u]
    cases hs : sameShape t u <;> cases hm : mfFree t <;>
      simp [hs, hm, tyBeqList_eq ts us (by simpa using h)]
end

/-! ## Claim C1 -/

/-- A dummy position for hand-built AST nodes. -/
def p0 : Pos := ⟨1, 1, []⟩

/-- A dummy parsed expression for hand-built `Func` types. -/
def dummyPE : PExpr := .mk p0 p0 (.ident ['x'])

/-- C1 (counterexample): type equality is *not* reflexive on `Maybe` and
`Func` types — the source's `PartialEq for Type` has no arms for them,
so `t == t` is `false` for a `Maybe` type and for a `Func` type, even
though both have the same structural shape as themselves. -/
theorem c1_counterexample :
    tyBeq (Ty.maybe ⟨0⟩ (Ty.int ⟨1⟩)) (Ty.maybe ⟨0⟩ (Ty.int ⟨1⟩)) = false ∧
    sameShape (Ty.maybe ⟨0⟩ (Ty.int ⟨1⟩)) (Ty.maybe ⟨0⟩ (Ty.int ⟨1⟩)) = true ∧
    tyBeq (Ty.func dummyPE dummyPE 0) (Ty.func dummyPE dummyPE 0) = false ∧
    sameShape (Ty.func dummyPE dummyPE 0) (Ty.func dummyPE dummyPE 0) = true :=
  ⟨rfl, rfl, rfl, rfl⟩

/-- C1 (amended): the equality predicate on types compares `t == u`
exactly as "same structural shape *and* `t` contains neither `Maybe` nor
`Func`"; on `Maybe`- and `Func`-free types it is purely structural
(ignoring the variables carried), but a `Maybe` or `Func` type compares
unequal to every type, itself included. -/
theorem c1_theorem : ∀ t u : Ty, tyBeq t u = (sameShape t u && mfFree t) :=
  tyBeq_eq

/-! ## Claim C8 -/

/-- C8: the type/size law — for every type `t`, `vars(t)` has exactly
`size(t)` elements, and `map_to(t, vars(t))` rebuilds `t` itself (equal
as a term, hence in particular structurally equal to `t`). -/
theorem c8_theorem : ∀ t : Ty,
    (Ty.getUsedVars t).length = Ty.size t ∧
    Ty.mapTo t (Ty.getUsedVars t) = some t :=
  fun t => ⟨getUsedVars_length t, mapTo_self t⟩

/-! ## Claim C5 -/

/-- A pattern that is neither an identifier nor a tuple (spec-side
predicate used to state C5). -/
def notIdentTuple (p : PExpr) : Bool :=
  match p with
  | .mk _ _ (.ident _) => false
  | .mk _ _ (.tuple _) => false
  | _ => true

/-- An integer-literal pattern, the shape of C5's failing input. -/
def intLitPattern : PExpr := .mk p0 p0 (.intLiteral ['1'])

/-- C5 (counterexample): matching the pattern `1` (an integer literal,
neither an identifier nor a tuple) against an `Int` type does not signal
a `TypeError` at the pattern's span — it hits `unimplemented!` and
terminates abnormally (modelled by `CErr.unimpl`). -/
theorem c5_counterexample :
    matchPattern intLitPattern (Ty.int ⟨0⟩) Scope.new = .error .unimpl ∧
    CErr.unimpl ≠ CErr.compileError ⟨Pos.slice p0 p0, .typeError⟩ :=
  ⟨rfl, by decide⟩

/-- C5 (amended): for every pattern expression that is neither an
identifier nor a tuple pattern, `match_pattern` terminates abnormally
via `unimplemented!` (rather than signalling a `TypeError` at the
pattern's span). -/
theorem c5_theorem (p : PExpr) (ty : Ty) (sc : Scope)
    (h : notIdentTuple p = true) :
    matchPattern p ty sc = .error .unimpl := by
  match p with
  | .mk s e n =>
    cases n <;> simp [notIdentTuple] at h <;> rfl

/-- C5 (witness): the amended theorem applied to the integer-literal
pattern. -/
theorem c5_witness :
    notIdentTuple intLitPattern = true ∧
    matchPattern intLitPattern (Ty.bool ⟨3⟩) Scope.new = .error .unimpl :=
  ⟨rfl, c5_theorem intLitPattern (Ty.bool ⟨3⟩) Scope.new rfl⟩

/-! ## Claim C10 -/

/-- C10: the initial position of any source is (line 1, column 1), and
stepping over a newline yields column 0 on the next line; so in a
two-line source the first character is read at column 1 but the first
character of the second line sits at column 0. -/
theorem c10_theorem (l c : Int) (rest : List Char) (a b : Char) (ha : a ≠ '\n') :
    (∀ src : List Char, Pos.fromSource src = ⟨1, 1, src⟩) ∧
    Pos.next ⟨l, c, '\n' :: rest⟩ = some (⟨l + 1, 0, rest⟩, '\n') ∧
    (Pos.fromSource [a, '\n', b]).next = some (⟨1, 2, ['\n', b]⟩, a) ∧
    ((Pos.fromSource [a, '\n', b]).next.bind (fun qc => qc.1.next)) =
      some (⟨2, 0, [b]⟩, '\n') := by
  refine ⟨fun src => rfl, by simp [Pos.next], ?_, ?_⟩ <;>
    simp [Pos.fromSource, Pos.next, ha]

/-- C10 (witness): the theorem at the source `"x\ny"`. -/
theorem c10_witness :
    ('x' ≠ '\n') ∧
    ((∀ src : List Char, Pos.fromSource src = ⟨1, 1, src⟩) ∧
     Pos.next ⟨5, 9, '\n' :: ['z']⟩ = some (⟨5 + 1, 0, ['z']⟩, '\n') ∧
     (Pos.fromSource ['x', '\n', 'y']).next = some (⟨1, 2, ['\n', 'y']⟩, 'x') ∧
     ((Pos.fromSource ['x', '\n', 'y']).next.bind (fun qc => qc.1.next)) =
       some (⟨2, 0, ['y']⟩, '\n')) :=
  ⟨by decide, c10_theorem 5 9 ['z'] 'x' 'y' (by decide)⟩

/-! ## Claim C7 -/

/-- C7 (counterexample): parsing `"( 1 + "` does *not* fail with
`ExpectedString(")")` — the missing right operand of `+` is diagnosed
first, so the parse fails with `ExpectedValue` at end-of-input (line 1,
column 7, no remaining source). -/
theorem c7_counterexample :
    parseSource 100 ['(', ' ', '1', ' ', '+', ' '] =
      .error ⟨⟨1, 7, []⟩, .expectedValue⟩ ∧
    ParseErrorType.expectedValue ≠ ParseErrorType.expectedString [')'] :=
  ⟨rfl, by decide⟩

/-- C7 (amended): parsing the source text `( 1 + ` fails with the parse
error `ExpectedValue` positioned at end-of-input (the `+`'s right
operand is parsed before the closing-parenthesis check, so the
`ExpectedString(")")` branch is never reached; `( 1 ` is the input that
produces `ExpectedString(")")` at end-of-input). -/
theorem c7_theorem :
    parseSource 100 ['(', ' ', '1', ' ', '+', ' '] =
      .error ⟨⟨1, 7, []⟩, .expectedValue⟩ ∧
    parseSource 100 ['(', ' ', '1', ' '] =
      .error ⟨⟨1, 5, []⟩, .expectedString [')']⟩ :=
  ⟨rfl, rfl⟩

/-! ## Claim C6 -/

/-- Checks that a parse result is the left-folded sum
`Binary{Binary{x, y, Plus}, z, Plus}` of three identifiers (spec-side,
used to state C6 as written). -/
def isPlusLeftFold (r : Except ParseError PExpr) (x y z : Char) : Bool :=
  match r with
  | .ok (.mk _ _ (.binary
      (.mk _ _ (.binary (.mk _ _ (.ident a)) (.mk _ _ (.ident b)) .plus))
      (.mk _ _ (.ident c)) .plus)) =>
    a == [x] && b == [y] && c == [z]
  | _ => false

/-- Checks that a parse result is the right-folded sum
`Binary{x, Binary{y, z, Plus}, Plus}` of three identifiers. -/
def isPlusRightFold (r : Except ParseError PExpr) (x y z : Char) : Bool :=
  match r with
  | .ok (.mk _ _ (.binary (.mk _ _ (.ident a))
      (.mk _ _ (.binary (.mk _ _ (.ident b)) (.mk _ _ (.ident c)) .plus)) .plus)) =>
    a == [x] && b == [y] && c == [z]
  | _ => false

/-- C6 (counterexample): the source `a + b + c` does *not* parse to the
left-folded tree; it parses to the right-folded tree
`Binary{a, Binary{b, c, Plus}, Plus}` (the `+` arm parses its right
operand at the same precedence level, which consumes the following `+`). -/
theorem c6_counterexample :
    isPlusLeftFold (parseSource 30 ['a', ' ', '+', ' ', 'b', ' ', '+', ' ', 'c'])
      'a' 'b' 'c' = false ∧
    isPlusRightFold (parseSource 30 ['a', ' ', '+', ' ', 'b', ' ', '+', ' ', 'c'])
      'a' 'b' 'c' = true :=
  ⟨rfl, rfl⟩

/-! ### Single-step evaluation lemmas for the parser -/

/-- Bind of a successful `Except` computation, as a rewrite rule. -/
theorem bindOk {ε α β : Type} (a : α) (f : α → Except ε β) :
    (do
      let x ← Except.ok (ε := ε) a
      f x) = f a := rfl

/-- One prefix step of `parse` on an identifier character whose run stops
immediately (the next character is not alphanumeric): the parser emits an
`Ident` of that single character and enters the infix loop. -/
theorem parse_ident_step (n : Nat) (l c : Int) (x : Char) (rest : List Char) (prec : Prec)
    (hx1 : chIsAlphabetic x = true) (hx2 : chIsNumeric x = false)
    (hx3 : ¬x = '(') (hx4 : ¬x = '\x7b')
    (hstop : Pos.nextWhile chIsAlphanumeric ⟨l, c + 1, rest⟩ = ⟨l, c + 1, rest⟩) :
    parse (n + 1) ⟨l, c, x :: rest⟩ prec =
      parseLoop n (.mk ⟨l, c, x :: rest⟩ ⟨l, c + 1, rest⟩ (.ident [x])) prec := by
  have hxn : ¬x = '\n' := by
    intro h
    rw [h] at hx1
    simp [chIsAlphabetic, Char.isAlpha, Char.isUpper, Char.isLower] at hx1
  simp only [parse, Pos.next, hx1, hx2, hx3, hx4, hxn, if_false, if_true, hstop,
    Bool.false_eq_true, if_neg, Pos.slice]
  simp [Pos.slice, hx3, hx4, hxn, hx2, List.take]
  rfl

/-- One step of the infix loop at a `+`: the right operand is parsed at
the *same* precedence (when that precedence admits `+`). -/
theorem parseLoop_plus_step (n : Nat) (left : PExpr) (l c : Int) (rest : List Char)
    (prec : Prec) (hskip : skipSpaces left.endPos = ⟨l, c, '+' :: rest⟩)
    (hprec : Prec.val prec < 3) :
    parseLoop (n + 1) left prec =
      (do
        let right ← parse n (skipLines ⟨l, c + 1, rest⟩) prec
        parseLoop n (Expr.newBinary left right .plus) prec) := by
  have hc : (decide ('+' = '+') && decide (prec.val < Prec.sum.val)) = true := by
    simp [show Prec.val Prec.sum = 3 from rfl, hprec]
  simp only [parseLoop, hskip, Pos.next]
  simp [hc]
  intro h
  exact absurd hprec (Nat.not_lt.mpr h)

/-- One step of the infix loop at a `,` (admitted up to the `Tuple`
level): the right operand is parsed at `Tuple` level and folded with
`new_tuple`. -/
theorem parseLoop_comma_step (n : Nat) (left : PExpr) (l c : Int) (rest : List Char)
    (prec : Prec) (hskip : skipSpaces left.endPos = ⟨l, c, ',' :: rest⟩)
    (hprec : Prec.val prec ≤ 1) :
    parseLoop (n + 1) left prec =
      (do
        let right ← parse n (skipLines ⟨l, c + 1, rest⟩) .tuple
        parseLoop n (Expr.newTuple left right) prec) := by
  have hc : (decide (',' = ',') && decide (prec.val ≤ Prec.tuple.val)) = true := by
    simp [show Prec.val Prec.tuple = 1 from rfl, hprec]
  simp only [parseLoop, hskip, Pos.next]
  simp [hc]
  intro h
  exact absurd hprec (Nat.not_le.mpr h)

/-- The infix loop returns `left` when the input is exhausted. -/
theorem parseLoop_done (n : Nat) (left : PExpr) (l c : Int)
    (hskip : skipSpaces left.endPos = ⟨l, c, []⟩) :
    parseLoop (n + 1) left prec = .ok left := by
  simp only [parseLoop, hskip, Pos.next]
  simp [skipLines, Pos.nextWhile, nextWhileGo, Pos.next]

/-- The infix loop returns `left` on a non-operator, non-alphabetic,
non-whitespace character that the block arm rejects (either a closing
brace, or a precedence above `Block`). -/
theorem parseLoop_stop (n : Nat) (left : PExpr) (l c : Int) (ch : Char) (rest : List Char)
    (prec : Prec) (hskip : skipSpaces left.endPos = ⟨l, c, ch :: rest⟩)
    (h1 : ¬ch = '+') (h2 : ¬ch = '=') (h3 : ¬ch = '(') (h4 : ¬ch = ',')
    (h5 : chIsAlphabetic ch = false) (h6 : chIsWhitespace ch = false)
    (h7 : ch = '\x7d' ∨ ¬Prec.val prec ≤ 0) :
    parseLoop (n + 1) left prec = .ok left := by
  have hn : ¬ch = '\n' := by
    intro h
    rw [h] at h6
    simp [chIsWhitespace, Char.isWhitespace] at h6
  simp only [parseLoop, hskip, Pos.next]
  rcases h7 with h7 | h7
  · subst h7
    simp [show chIsAlphabetic '\x7d' = false from by decide,
      show chIsWhitespace '\x7d' = false from by decide,
      show ¬ '\x7d' = '+' from by decide, show ¬ '\x7d' = '=' from by decide,
      show ¬ '\x7d' = '(' from by decide, show ¬ '\x7d' = ',' from by decide,
      show ¬ '\x7d' = '\n' from by decide,
      skipLines, Pos.nextWhile, nextWhileGo]
  · simp [h1, h2, h3, h4, h5, h6, hn, h7, skipLines, Pos.nextWhile, nextWhileGo,
      show Prec.val Prec.block = 0 from rfl]

/-- One prefix step of `parse` at `(`: parse the inside at `Tuple` level,
require `)` right after it, and keep the *inner node* (re-spanned to
include the parentheses). -/
theorem parse_paren_step (n : Nat) (l c : Int) (rest : List Char) (prec : Prec)
    (v : PExpr) (e : Pos)
    (hinner : parse n (skipLines ⟨l, c + 1, rest⟩) .tuple = .ok v)
    (hnext : v.endPos.next = some (e, ')')) :
    parse (n + 1) ⟨l, c, '(' :: rest⟩ prec =
      parseLoop n (.mk ⟨l, c, '(' :: rest⟩ e v.node) prec := by
  have hstart : Pos.next ⟨l, c, '(' :: rest⟩ = some (⟨l, c + 1, rest⟩, '(') := by
    simp [Pos.next]
  simp only [parse, hstart]
  simp [hinner, hnext, bindOk, show chIsNumeric '(' = false from by decide]

/-- C6 (amended): `+` is right-associative — for every source
`x + y + z` of three (single-character, non-keyword) identifiers, the
parser produces the right-folded tree `Binary{x, Binary{y, z, Plus},
Plus}` rather than the left-folded one, because the right operand of `+`
is parsed at the same precedence level and therefore consumes the second
`+`. -/
theorem c6_theorem (x y z : Char)
    (hx1 : chIsAlphabetic x = true) (hx2 : chIsNumeric x = false)
    (hx3 : ¬x = '(') (hx4 : ¬x = '\x7b')
    (hy1 : chIsAlphabetic y = true) (hy2 : chIsNumeric y = false)
    (hy3 : ¬y = '(') (hy4 : ¬y = '\x7b') (hy5 : chIsWhitespace y = false)
    (hz1 : chIsAlphabetic z = true) (hz2 : chIsNumeric z = false)
    (hz3 : ¬z = '(') (hz4 : ¬z = '\x7b') (hz5 : chIsWhitespace z = false) :
    isPlusRightFold (parseSource 12 [x, ' ', '+', ' ', y, ' ', '+', ' ', z]) x y z
      = true := by
  have spl : chIsWhitespace ' ' = true := by decide
  have wpl : chIsWhitespace '+' = false := by decide
  have an : chIsAlphanumeric ' ' = false := by decide
  have hA : parse 12 ⟨1, 1, [x, ' ', '+', ' ', y, ' ', '+', ' ', z]⟩ .block =
      parseLoop 11 (.mk ⟨1, 1, [x, ' ', '+', ' ', y, ' ', '+', ' ', z]⟩
        ⟨1, 1 + 1, [' ', '+', ' ', y, ' ', '+', ' ', z]⟩ (.ident [x])) .block :=
    parse_ident_step 11 1 1 x _ .block hx1 hx2 hx3 hx4
      (by simp [Pos.nextWhile, nextWhileGo, an])
  have hB : parseLoop 11 (PExpr.mk ⟨1, 1, [x, ' ', '+', ' ', y, ' ', '+', ' ', z]⟩
        ⟨1, 1 + 1, [' ', '+', ' ', y, ' ', '+', ' ', z]⟩ (.ident [x])) .block =
      (do
        let right ← parse 10 (skipLines ⟨1, 3 + 1, [' ', y, ' ', '+', ' ', z]⟩) .block
        parseLoop 10 (Expr.newBinary (.mk ⟨1, 1, [x, ' ', '+', ' ', y, ' ', '+', ' ', z]⟩
          ⟨1, 1 + 1, [' ', '+', ' ', y, ' ', '+', ' ', z]⟩ (.ident [x])) right .plus) .block) :=
    parseLoop_plus_step 10 _ 1 3 [' ', y, ' ', '+', ' ', z] .block
      (by simp [PExpr.endPos, skipSpaces, Pos.nextWhile, nextWhileGo, spl, wpl])
      (by decide)
  have hskipy : skipLines ⟨1, 3 + 1, [' ', y, ' ', '+', ' ', z]⟩ =
      ⟨1, 5, [y, ' ', '+', ' ', z]⟩ := by
    simp [skipLines, Pos.nextWhile, nextWhileGo, spl, hy5]
  have hC : parse 10 ⟨1, 5, [y, ' ', '+', ' ', z]⟩ .block =
      parseLoop 9 (.mk ⟨1, 5, [y, ' ', '+', ' ', z]⟩
        ⟨1, 5 + 1, [' ', '+', ' ', z]⟩ (.ident [y])) .block :=
    parse_ident_step 9 1 5 y _ .block hy1 hy2 hy3 hy4
      (by simp [Pos.nextWhile, nextWhileGo, an])
  have hD : parseLoop 9 (PExpr.mk ⟨1, 5, [y, ' ', '+', ' ', z]⟩
        ⟨1, 5 + 1, [' ', '+', ' ', z]⟩ (.ident [y])) .block =
      (do
        let right ← parse 8 (skipLines ⟨1, 7 + 1, [' ', z]⟩) .block
        parseLoop 8 (Expr.newBinary (.mk ⟨1, 5, [y, ' ', '+', ' ', z]⟩
          ⟨1, 5 + 1, [' ', '+', ' ', z]⟩ (.ident [y])) right .plus) .block) :=
    parseLoop_plus_step 8 _ 1 7 [' ', z] .block
      (by simp [PExpr.endPos, skipSpaces, Pos.nextWhile, nextWhileGo, spl, wpl])
      (by decide)
  have hskipz : skipLines ⟨1, 7 + 1, [' ', z]⟩ = ⟨1, 9, [z]⟩ := by
    simp [skipLines, Pos.nextWhile, nextWhileGo, spl, hz5]
  have hE : parse 8 ⟨1, 9, [z]⟩ .block =
      parseLoop 7 (.mk ⟨1, 9, [z]⟩ ⟨1, 9 + 1, []⟩ (.ident [z])) .block :=
    parse_ident_step 7 1 9 z [] .block hz1 hz2 hz3 hz4
      (by simp [Pos.nextWhile, nextWhileGo])
  have hF : parseLoop 7 (PExpr.mk ⟨1, 9, [z]⟩ ⟨1, 9 + 1, []⟩ (.ident [z])) .block =
      .ok (.mk ⟨1, 9, [z]⟩ ⟨1, 9 + 1, []⟩ (.ident [z])) :=
    parseLoop_done 6 _ 1 10 (by
      simp [PExpr.endPos, skipSpaces, Pos.nextWhile, nextWhileGo])
  have hG : parseLoop 8 (Expr.newBinary (.mk ⟨1, 5, [y, ' ', '+', ' ', z]⟩
        ⟨1, 5 + 1, [' ', '+', ' ', z]⟩ (.ident [y]))
        (.mk ⟨1, 9, [z]⟩ ⟨1, 9 + 1, []⟩ (.ident [z])) .plus) .block =
      .ok (Expr.newBinary (.mk ⟨1, 5, [y, ' ', '+', ' ', z]⟩
        ⟨1, 5 + 1, [' ', '+', ' ', z]⟩ (.ident [y]))
        (.mk ⟨1, 9, [z]⟩ ⟨1, 9 + 1, []⟩ (.ident [z])) .plus) :=
    parseLoop_done 7 _ 1 10 (by
      simp [Expr.newBinary, PExpr.endPos, PExpr.startPos, skipSpaces, Pos.nextWhile,
        nextWhileGo])
  have hH : parseLoop 10 (Expr.newBinary (.mk ⟨1, 1, [x, ' ', '+', ' ', y, ' ', '+', ' ', z]⟩
        ⟨1, 1 + 1, [' ', '+', ' ', y, ' ', '+', ' ', z]⟩ (.ident [x]))
        (Expr.newBinary (.mk ⟨1, 5, [y, ' ', '+', ' ', z]⟩
          ⟨1, 5 + 1, [' ', '+', ' ', z]⟩ (.ident [y]))
          (.mk ⟨1, 9, [z]⟩ ⟨1, 9 + 1, []⟩ (.ident [z])) .plus) .plus) .block =
      .ok (Expr.newBinary (.mk ⟨1, 1, [x, ' ', '+', ' ', y, ' ', '+', ' ', z]⟩
        ⟨1, 1 + 1, [' ', '+', ' ', y, ' ', '+', ' ', z]⟩ (.ident [x]))
        (Expr.newBinary (.mk ⟨1, 5, [y, ' ', '+', ' ', z]⟩
          ⟨1, 5 + 1, [' ', '+', ' ', z]⟩ (.ident [y]))
          (.mk ⟨1, 9, [z]⟩ ⟨1, 9 + 1, []⟩ (.ident [z])) .plus) .plus) :=
    parseLoop_done 9 _ 1 10 (by
      simp [Expr.newBinary, PExpr.endPos, PExpr.startPos, skipSpaces, Pos.nextWhile,
        nextWhileGo])
  simp only [parseSource, Pos.fromSource, hA, hB, hskipy, hC, hD, hskipz, hE, hF,
    bindOk, hG, hH]
  simp [isPlusRightFold, Expr.newBinary, PExpr.startPos, PExpr.endPos]

/-- C6 (witness): the amended theorem at the source `a + b + c`. -/
theorem c6_witness :
    (chIsAlphabetic 'a' = true ∧ chIsAlphabetic 'b' = true ∧ chIsAlphabetic 'c' = true) ∧
    isPlusRightFold (parseSource 12 ['a', ' ', '+', ' ', 'b', ' ', '+', ' ', 'c'])
      'a' 'b' 'c' = true :=
  ⟨⟨by decide, by decide, by decide⟩,
   c6_theorem 'a' 'b' 'c' (by decide) (by decide) (by decide) (by decide)
     (by decide) (by decide) (by decide) (by decide) (by decide)
     (by decide) (by decide) (by decide) (by decide) (by decide)⟩

/-! ## Claim C9 -/

/-- Checks that a parse result is the flat three-element tuple
`Tuple{x, y, z}` of identifiers (spec-side, used to state C9). -/
def isFlatTriple (r : Except ParseError PExpr) (x y z : Char) : Bool :=
  match r with
  | .ok (.mk _ _ (.tuple [.mk _ _ (.ident a), .mk _ _ (.ident b), .mk _ _ (.ident c)])) =>
    a == [x] && b == [y] && c == [z]
  | _ => false

/-- C9: parentheses cannot create nested tuples — for every source
`(x, y), z` of single-character identifiers, the `(` prefix arm keeps the
inner `Tuple` node (re-spanned), and the `,` fold flattens a left operand
that is already a `Tuple`, so the result is the flat `Tuple{x, y, z}`
(not `Tuple{Tuple{x, y}, z}`). -/
theorem c9_theorem (x y z : Char)
    (hx1 : chIsAlphabetic x = true) (hx2 : chIsNumeric x = false)
    (hx3 : ¬x = '(') (hx4 : ¬x = '\x7b') (hx5 : chIsWhitespace x = false)
    (hy1 : chIsAlphabetic y = true) (hy2 : chIsNumeric y = false)
    (hy3 : ¬y = '(') (hy4 : ¬y = '\x7b') (hy5 : chIsWhitespace y = false)
    (hz1 : chIsAlphabetic z = true) (hz2 : chIsNumeric z = false)
    (hz3 : ¬z = '(') (hz4 : ¬z = '\x7b') (hz5 : chIsWhitespace z = false) :
    isFlatTriple (parseSource 14 ['(', x, ',', ' ', y, ')', ',', ' ', z]) x y z
      = true := by
  have spl : chIsWhitespace ' ' = true := by decide
  have hskip0 : skipLines ⟨1, 1 + 1, [x, ',', ' ', y, ')', ',', ' ', z]⟩ =
      ⟨1, 2, [x, ',', ' ', y, ')', ',', ' ', z]⟩ := by
    simp [skipLines, Pos.nextWhile, nextWhileGo, hx5]
  -- inner parse of `x, y` at Tuple level
  have hIx : parse 13 ⟨1, 2, [x, ',', ' ', y, ')', ',', ' ', z]⟩ .tuple =
      parseLoop 12 (.mk ⟨1, 2, [x, ',', ' ', y, ')', ',', ' ', z]⟩
        ⟨1, 2 + 1, [',', ' ', y, ')', ',', ' ', z]⟩ (.ident [x])) .tuple :=
    parse_ident_step 12 1 2 x _ .tuple hx1 hx2 hx3 hx4
      (by simp [Pos.nextWhile, nextWhileGo, show chIsAlphanumeric ',' = false from by decide])
  have hIc : parseLoop 12 (PExpr.mk ⟨1, 2, [x, ',', ' ', y, ')', ',', ' ', z]⟩
        ⟨1, 2 + 1, [',', ' ', y, ')', ',', ' ', z]⟩ (.ident [x])) .tuple =
      (do
        let right ← parse 11 (skipLines ⟨1, 3 + 1, [' ', y, ')', ',', ' ', z]⟩) .tuple
        parseLoop 11 (Expr.newTuple (.mk ⟨1, 2, [x, ',', ' ', y, ')', ',', ' ', z]⟩
          ⟨1, 2 + 1, [',', ' ', y, ')', ',', ' ', z]⟩ (.ident [x])) right) .tuple) :=
    parseLoop_comma_step 11 _ 1 3 [' ', y, ')', ',', ' ', z] .tuple
      (by simp [PExpr.endPos, skipSpaces, Pos.nextWhile, nextWhileGo,
        show chIsWhitespace ',' = false from by decide])
      (by decide)
  have hskipy : skipLines ⟨1, 3 + 1, [' ', y, ')', ',', ' ', z]⟩ =
      ⟨1, 5, [y, ')', ',', ' ', z]⟩ := by
    simp [skipLines, Pos.nextWhile, nextWhileGo, spl, hy5]
  have hIy : parse 11 ⟨1, 5, [y, ')', ',', ' ', z]⟩ .tuple =
      parseLoop 10 (.mk ⟨1, 5, [y, ')', ',', ' ', z]⟩
        ⟨1, 5 + 1, [')', ',', ' ', z]⟩ (.ident [y])) .tuple :=
    parse_ident_step 10 1 5 y _ .tuple hy1 hy2 hy3 hy4
      (by simp [Pos.nextWhile, nextWhileGo, show chIsAlphanumeric ')' = false from by decide])
  have hIys : parseLoop 10 (PExpr.mk ⟨1, 5, [y, ')', ',', ' ', z]⟩
        ⟨1, 5 + 1, [')', ',', ' ', z]⟩ (.ident [y])) .tuple =
      .ok (.mk ⟨1, 5, [y, ')', ',', ' ', z]⟩ ⟨1, 5 + 1, [')', ',', ' ', z]⟩ (.ident [y])) :=
    parseLoop_stop 9 _ 1 6 ')' [',', ' ', z] .tuple
      (by simp [PExpr.endPos, skipSpaces, Pos.nextWhile, nextWhileGo,
        show chIsWhitespace ')' = false from by decide])
      (by decide) (by decide) (by decide) (by decide) (by decide) (by decide)
      (Or.inr (by decide))
  have hIts : parseLoop 11 (Expr.newTuple (.mk ⟨1, 2, [x, ',', ' ', y, ')', ',', ' ', z]⟩
        ⟨1, 2 + 1, [',', ' ', y, ')', ',', ' ', z]⟩ (.ident [x]))
        (.mk ⟨1, 5, [y, ')', ',', ' ', z]⟩ ⟨1, 5 + 1, [')', ',', ' ', z]⟩ (.ident [y]))) .tuple =
      .ok (Expr.newTuple (.mk ⟨1, 2, [x, ',', ' ', y, ')', ',', ' ', z]⟩
        ⟨1, 2 + 1, [',', ' ', y, ')', ',', ' ', z]⟩ (.ident [x]))
        (.mk ⟨1, 5, [y, ')', ',', ' ', z]⟩ ⟨1, 5 + 1, [')', ',', ' ', z]⟩ (.ident [y]))) :=
    parseLoop_stop 10 _ 1 6 ')' [',', ' ', z] .tuple
      (by simp [Expr.newTuple, PExpr.endPos, PExpr.startPos, PExpr.node, skipSpaces,
        Pos.nextWhile, nextWhileGo, show chIsWhitespace ')' = false from by decide])
      (by decide) (by decide) (by decide) (by decide) (by decide) (by decide)
      (Or.inr (by decide))
  have hinner : parse 13 (skipLines ⟨1, 1 + 1, [x, ',', ' ', y, ')', ',', ' ', z]⟩) .tuple =
      .ok (Expr.newTuple (.mk ⟨1, 2, [x, ',', ' ', y, ')', ',', ' ', z]⟩
        ⟨1, 2 + 1, [',', ' ', y, ')', ',', ' ', z]⟩ (.ident [x]))
        (.mk ⟨1, 5, [y, ')', ',', ' ', z]⟩ ⟨1, 5 + 1, [')', ',', ' ', z]⟩ (.ident [y]))) := by
    rw [hskip0, hIx, hIc, hskipy, hIy, hIys]
    simp only [bindOk, hIts]
  have hP : parse 14 ⟨1, 1, ['(', x, ',', ' ', y, ')', ',', ' ', z]⟩ .block =
      parseLoop 13 (.mk ⟨1, 1, ['(', x, ',', ' ', y, ')', ',', ' ', z]⟩
        ⟨1, 7, [',', ' ', z]⟩
        (Expr.newTuple (.mk ⟨1, 2, [x, ',', ' ', y, ')', ',', ' ', z]⟩
          ⟨1, 2 + 1, [',', ' ', y, ')', ',', ' ', z]⟩ (.ident [x]))
          (.mk ⟨1, 5, [y, ')', ',', ' ', z]⟩
            ⟨1, 5 + 1, [')', ',', ' ', z]⟩ (.ident [y]))).node) .block :=
    parse_paren_step 13 1 1 [x, ',', ' ', y, ')', ',', ' ', z] .block _ ⟨1, 7, [',', ' ', z]⟩
      hinner
      (by simp [Expr.newTuple, PExpr.endPos, PExpr.startPos, Pos.next])
  have hOc : parseLoop 13 (PExpr.mk ⟨1, 1, ['(', x, ',', ' ', y, ')', ',', ' ', z]⟩
        ⟨1, 7, [',', ' ', z]⟩
        (Expr.newTuple (.mk ⟨1, 2, [x, ',', ' ', y, ')', ',', ' ', z]⟩
          ⟨1, 2 + 1, [',', ' ', y, ')', ',', ' ', z]⟩ (.ident [x]))
          (.mk ⟨1, 5, [y, ')', ',', ' ', z]⟩
            ⟨1, 5 + 1, [')', ',', ' ', z]⟩ (.ident [y]))).node) .block =
      (do
        let right ← parse 12 (skipLines ⟨1, 7 + 1, [' ', z]⟩) .tuple
        parseLoop 12 (Expr.newTuple (.mk ⟨1, 1, ['(', x, ',', ' ', y, ')', ',', ' ', z]⟩
          ⟨1, 7, [',', ' ', z]⟩
          (Expr.newTuple (.mk ⟨1, 2, [x, ',', ' ', y, ')', ',', ' ', z]⟩
            ⟨1, 2 + 1, [',', ' ', y, ')', ',', ' ', z]⟩ (.ident [x]))
            (.mk ⟨1, 5, [y, ')', ',', ' ', z]⟩
              ⟨1, 5 + 1, [')', ',', ' ', z]⟩ (.ident [y]))).node) right) .block) :=
    parseLoop_comma_step 12 _ 1 7 [' ', z] .block
      (by simp [PExpr.endPos, skipSpaces, Pos.nextWhile, nextWhileGo,
        show chIsWhitespace ',' = false from by decide])
      (by decide)
  have hskipz : skipLines ⟨1, 7 + 1, [' ', z]⟩ = ⟨1, 9, [z]⟩ := by
    simp [skipLines, Pos.nextWhile, nextWhileGo, spl, hz5]
  have hIz : parse 12 ⟨1, 9, [z]⟩ .tuple =
      parseLoop 11 (.mk ⟨1, 9, [z]⟩ ⟨1, 9 + 1, []⟩ (.ident [z])) .tuple :=
    parse_ident_step 11 1 9 z [] .tuple hz1 hz2 hz3 hz4
      (by simp [Pos.nextWhile, nextWhileGo])
  have hIzs : parseLoop 11 (PExpr.mk ⟨1, 9, [z]⟩ ⟨1, 9 + 1, []⟩ (.ident [z])) .tuple =
      .ok (.mk ⟨1, 9, [z]⟩ ⟨1, 9 + 1, []⟩ (.ident [z])) :=
    parseLoop_done 10 _ 1 10 (by
      simp [PExpr.endPos, skipSpaces, Pos.nextWhile, nextWhileGo])
  have hfin : parseLoop 12 (Expr.newTuple (.mk ⟨1, 1, ['(', x, ',', ' ', y, ')', ',', ' ', z]⟩
        ⟨1, 7, [',', ' ', z]⟩
        (Expr.newTuple (.mk ⟨1, 2, [x, ',', ' ', y, ')', ',', ' ', z]⟩
          ⟨1, 2 + 1, [',', ' ', y, ')', ',', ' ', z]⟩ (.ident [x]))
          (.mk ⟨1, 5, [y, ')', ',', ' ', z]⟩
            ⟨1, 5 + 1, [')', ',', ' ', z]⟩ (.ident [y]))).node)
        (.mk ⟨1, 9, [z]⟩ ⟨1, 9 + 1, []⟩ (.ident [z]))) .block =
      .ok (Expr.newTuple (.mk ⟨1, 1, ['(', x, ',', ' ', y, ')', ',', ' ', z]⟩
        ⟨1, 7, [',', ' ', z]⟩
        (Expr.newTuple (.mk ⟨1, 2, [x, ',', ' ', y, ')', ',', ' ', z]⟩
          ⟨1, 2 + 1, [',', ' ', y, ')', ',', ' ', z]⟩ (.ident [x]))
          (.mk ⟨1, 5, [y, ')', ',', ' ', z]⟩
            ⟨1, 5 + 1, [')', ',', ' ', z]⟩ (.ident [y]))).node)
        (.mk ⟨1, 9, [z]⟩ ⟨1, 9 + 1, []⟩ (.ident [z]))) :=
    parseLoop_done 11 _ 1 10 (by
      simp [Expr.newTuple, PExpr.endPos, PExpr.startPos, PExpr.node, skipSpaces,
        Pos.nextWhile, nextWhileGo])
  simp only [parseSource, Pos.fromSource, hP, hOc, hskipz, hIz, hIzs, bindOk, hfin]
  simp [isFlatTriple, Expr.newTuple, PExpr.startPos, PExpr.endPos, PExpr.node]

/-- C9 (witness): the theorem at the source `(a, b), c`. -/
theorem c9_witness :
    (chIsAlphabetic 'a' = true ∧ chIsAlphabetic 'b' = true ∧ chIsAlphabetic 'c' = true) ∧
    isFlatTriple (parseSource 14 ['(', 'a', ',', ' ', 'b', ')', ',', ' ', 'c'])
      'a' 'b' 'c' = true :=
  ⟨⟨by decide, by decide, by decide⟩,
   c9_theorem 'a' 'b' 'c' (by decide) (by decide) (by decide) (by decide) (by decide)
     (by decide) (by decide) (by decide) (by decide) (by decide)
     (by decide) (by decide) (by decide) (by decide) (by decide)⟩

/-! ## Claim C3 -/

/-- The doubling function `g = fn(x){ x + x }` in IR form: one
parameter `r0`, one block computing `r1 = r0 + r0`, returning `r1`. -/
def c3g : IRFunction :=
  { params := [⟨0⟩], returns := [⟨1⟩], variableCount := 2,
    blocks := [⟨[.addInt ⟨1⟩ ⟨0⟩ ⟨0⟩], .ret, 0⟩] }

/-- The main function of `{ g = fn(x){ x + x }; g(3) + g(4) }` in IR
form: `r0 = 3; r1 = call g(r0); r2 = 4; r3 = call g(r2); r4 = r1 + r3`,
returning `r4`. -/
def c3main : IRFunction :=
  { params := [], returns := [⟨4⟩], variableCount := 5,
    blocks := [⟨[.constantInt ⟨0⟩ 3, .call ⟨0⟩ [⟨0⟩] [⟨1⟩],
                 .constantInt ⟨2⟩ 4, .call ⟨0⟩ [⟨2⟩] [⟨3⟩],
                 .addInt ⟨4⟩ ⟨1⟩ ⟨3⟩], .ret, 0⟩] }

/-- The two-function program for C3. -/
def c3prog : Program := ⟨[c3g, c3main]⟩

/-- C3: the interpreter does *not* run each function on its own register
file — `VirtualMachine::new` allocates one file for the whole program and
`Call` recurses on the same file.  Executing `{ g = fn(x){x+x}; g(3) +
g(4) }`: after the first call, caller register `r1` holds `6`; the second
call's body writes the *callee's* `r1 = 8` into the same shared slot,
clobbering the caller's `r1` even though `r1` is not among that call's
returns; the final result register `r4` is `8 + 8 = 16` instead of the
`6 + 8 = 14` that per-function register files (and the spec's scenario 7)
would give. -/
theorem c3_theorem :
    execute 20 c3prog c3main (List.replicate c3prog.getVariableCount 0) =
      some [4, 8, 4, 8, 16, 0, 0] ∧
    (16 : Int) ≠ 6 + 8 :=
  ⟨rfl, by decide⟩

/-! ## Claim C4 -/

/-- The successor block ids pushed by `count_uses_in_block`'s exit
handling. -/
def Block.successors (b : Block) : List BlockId :=
  match b.exit with
  | .branch t => [t]
  | .conditionalBranch _ t1 t2 => [t1, t2]
  | .ret => []

/-- Spec-side: the sequence of block ids the `count_uses_in_function`
traversal visits (same stack discipline — pop from the back, push the
exit's successors — with no visited set), recorded with multiplicity. -/
def visitLoop (fuel : Nat) (f : IRFunction) (queue : List BlockId) : Option (List Nat) :=
  match fuel with
  | 0 => none
  | fuel + 1 =>
    match queue.getLast? with
    | none => some []
    | some bid =>
      match f.getBlock bid with
      | none => none
      | some b => (visitLoop fuel f (queue.dropLast ++ b.successors)).map (bid.id :: ·)

/-- Spec-side: the visit sequence of the traversal started at the entry
block. -/
def visitList (fuel : Nat) (f : IRFunction) : Option (List Nat) :=
  visitLoop fuel f [BlockId.mainBlock]

/-- Spec-side: the number of static uses of variable `v` in one
instruction (the two inputs of `AddInt`, all three inputs of `Phi`, the
args of `Call`). -/
def instUses (v : Nat) : Instruction → Int
  | .addInt _ a b => (if a.id = v then 1 else 0) + (if b.id = v then 1 else 0)
  | .constantInt _ _ => 0
  | .phi cond a b _ =>
    (if cond.id = v then 1 else 0) + (if a.id = v then 1 else 0) +
      (if b.id = v then 1 else 0)
  | .call _ args _ => ((args.filter (fun w => w.id = v)).length : Int)

/-- Spec-side: the number of static uses of `v` in one block (instruction
uses plus the `cond` of a `ConditionalBranch` exit). -/
def blockUses (v : Nat) (b : Block) : Int :=
  (b.insts.map (instUses v)).sum +
  (match b.exit with
   | .conditionalBranch cond _ _ => if cond.id = v then 1 else 0
   | _ => 0)

/-- Spec-side: total uses of `v` summed over a visit sequence (with
multiplicity), plus one per occurrence of `v` in the return list. -/
def specUseCount (f : IRFunction) (L : List Nat) (v : Nat) : Int :=
  (L.map (fun bid =>
    match f.getBlock ⟨bid⟩ with
    | some b => blockUses v b
    | none => 0)).sum +
  ((f.returns.filter (fun w => w.id = v)).length : Int)

/-- Spec-side, following the claim's words: static uses of `v` over the
reachable blocks with each reachable block contributing exactly *once*
(the visit sequence deduplicated), plus the return-list occurrences. -/
def specUsesOnce (fuel : Nat) (f : IRFunction) (v : Nat) : Option Int :=
  (visitList fuel f).map (fun L =>
    ((L.dedup).map (fun bid =>
      match f.getBlock ⟨bid⟩ with
      | some b => blockUses v b
      | none => 0)).sum +
    ((f.returns.filter (fun w => w.id = v)).length : Int))

/-- A diamond CFG: block 0 conditionally branches to blocks 1 and 2,
both of which branch to the join block 3; the join block uses `r1`
twice in an `AddInt`. -/
def c4f : IRFunction :=
  { params := [], returns := [⟨2⟩], variableCount := 3,
    blocks :=
      [⟨[.constantInt ⟨0⟩ 1, .constantInt ⟨1⟩ 5], .conditionalBranch ⟨0⟩ ⟨1⟩ ⟨2⟩, 0⟩,
       ⟨[], .branch ⟨3⟩, 1⟩,
       ⟨[], .branch ⟨3⟩, 2⟩,
       ⟨[.addInt ⟨2⟩ ⟨1⟩ ⟨1⟩], .ret, 3⟩] }

/-- C4 (counterexample): on a diamond CFG the traversal (which has no
visited set) reaches the join block once per incoming path, so the join
block's uses are counted twice: the computed count for `r1` is 4,
whereas the static count with each reachable block contributing exactly
once is 2. -/
theorem c4_counterexample :
    countUsesInFunction 10 c4f = some [1, 4, 1] ∧
    visitList 10 c4f = some [0, 2, 3, 1, 3] ∧
    specUsesOnce 10 c4f 1 = some 2 ∧
    (4 : Int) ≠ 2 :=
  ⟨rfl, rfl, rfl, by decide⟩

/-! ## Claim C2 -/

/-- Wrap an expression node with dummy positions (for hand-built ASTs). -/
def pe (n : Expr) : PExpr := .mk p0 p0 n

/-- The pattern `x` of the counterexample's function `fn(x) x`. -/
def c2pat : PExpr := pe (.ident ['x'])

/-- An implementation with a `Maybe(Int)`-shaped `param_ty` — what
compiling a first `f(if (true) 1)` appends to `f`'s implementation
list (see the scenario in `c2seedSt`). -/
def c2seedImp : Implementation := ⟨.maybe ⟨0⟩ (.int ⟨1⟩), .maybe ⟨0⟩ (.int ⟨1⟩), ⟨0⟩⟩

/-- The scope binding `f` to the `Func` value whose implementation cell
is cell 0. -/
def c2seedScope : Scope := [(['f'], Ty.func c2pat c2pat 0)]

/-- The IR function of the already-present implementation: parameters
`r0, r1` (the `Maybe` tag and payload), returned unchanged. -/
def c2seedFn : IRFunction :=
  { params := [⟨0⟩, ⟨1⟩], returns := [⟨0⟩, ⟨1⟩], variableCount := 2,
    blocks := [⟨[], .ret, 0⟩] }

/-- The compiler state after `{ f = fn(x) x; f(if (true) 1) }` has been
compiled (up to the irrelevant contents of the caller's entry block):
one monomorphised IR function exists and `f`'s implementation cell
already holds the `Maybe(Int)`-shaped implementation. -/
def c2seedSt : CompSt :=
  { program := ⟨[c2seedFn]⟩,
    function := (IRFunction.new.newBlock).2, block := (IRFunction.new.newBlock).1,
    store := [[c2seedImp]] }

/-- The call `f(if (true) 1)`, whose argument type has the same
structural shape `Maybe(Int)` as the existing implementation. -/
def c2call : PExpr :=
  pe (.binary (pe (.ident ['f']))
    (pe (.ifExpr (pe (.boolLiteral ['t', 'r', 'u', 'e'])) (pe (.intLiteral ['1'])))) .bracket)

/-- The result of compiling the second same-shaped call. -/
def c2result : Except CErr (Ty × Scope × CompSt) := compile 6 c2call c2seedScope c2seedSt

/-- The implementation store after `c2result`. -/
def c2store : List (List Implementation) :=
  match c2result with
  | .ok (_, _, st) => st.store
  | .error _ => []

/-- The number of IR functions after `c2result`. -/
def c2funcCount : Nat :=
  match c2result with
  | .ok (_, _, st) => st.program.functions.length
  | .error _ => 0

/-- True iff cell 0 now holds exactly two implementations of the same
structural shape that the compiler equality `==` does not relate. -/
def c2check : Bool :=
  match c2store with
  | [[i1, i2]] => sameShape i1.paramTy i2.paramTy && !tyBeq i1.paramTy i2.paramTy
  | _ => false

/-- C2 (counterexample): compiling a call whose argument *shape*
(`Maybe(Int)`) already has an implementation in the `Func`'s list does
*not* reuse it: the scan compares with `==`, which never relates `Maybe`
types, so a second IR function is allocated (2 functions instead of 1)
and the cell ends up with two implementations whose `param_ty`s have the
same structural shape — they are not structurally distinct. -/
theorem c2_counterexample : c2check = true ∧ c2funcCount = 2 :=
  ⟨rfl, rfl⟩

mutual
theorem mapTo_ofSize : ∀ (t : Ty) (vs : List Var), t.size ≤ vs.length →
    ∃ u, Ty.mapTo t vs = some u
  | .int _, v :: _, _ => ⟨.int v, rfl⟩
  | .int _, [], h => by simp [Ty.size] at h
  | .bool _, v :: _, _ => ⟨.bool v, rfl⟩
  | .bool _, [], h => by simp [Ty.size] at h
  | .maybe w t, v :: rest, h => by
    obtain ⟨u, hu⟩ := mapTo_ofSize t rest (by simp [Ty.size] at h; omega)
    exact ⟨.maybe v u, by simp [Ty.mapTo, hu]⟩
  | .maybe _ _, [], h => by simp [Ty.size] at h
  | .tuple ts, vs, h => by
    obtain ⟨us, hus⟩ := mapToList_ofSize ts vs (by simpa [Ty.size] using h)
    exact ⟨.tuple us, by simp [Ty.mapTo, hus]⟩
  | .func p e i, vs, _ => ⟨.func p e i, rfl⟩

theorem mapToList_ofSize : ∀ (ts : List Ty) (vs : List Var), Ty.sizeList ts ≤ vs.length →
    ∃ us, Ty.mapToList ts vs = some us
  | [], vs, _ => ⟨[], rfl⟩
  | t :: ts, vs, h => by
    have h1 : t.size ≤ vs.length := by simp [Ty.sizeList] at h; omega
    obtain ⟨u, hu⟩ := mapTo_ofSize t (vs.take t.size) (by simp; omega)
    obtain ⟨us, hus⟩ := mapToList_ofSize ts (vs.drop t.size)
      (by simp [Ty.sizeList] at h ⊢; omega)
    exact ⟨u :: us, by simp [Ty.mapToList, h1, hu, hus]⟩
end

/-- C2 (amended): monomorphisation reuse is keyed by the compiler's `==`
on types — when the already-compiled argument type compares `==` to the
`param_ty` of some implementation in the `Func`'s list, compiling the
call emits only a `Call` to that implementation's function: the program
gains no IR function, the implementation store is unchanged, the caller
keeps its blocks, and exactly one `Call` instruction (to the found
implementation, with `vars(argument_ty)` as arguments) is appended to the
current block, with the result typed by renaming the implementation's
return type onto the fresh destinations. -/
theorem c2_theorem (fuel : Nat) (l r : PExpr) (es ee : Pos)
    (scope scope1 scope2 : Scope) (st st1 st2 : CompSt)
    (pattern body : PExpr) (cell : Nat) (argTy : Ty) (imp : Implementation)
    (hl : compile fuel l scope st = .ok (.func pattern body cell, scope1, st1))
    (hr : compile fuel r scope1 st1 = .ok (argTy, scope2, st2))
    (hfind : (st2.store.getD cell []).find? (fun i => tyBeq i.paramTy argTy) = some imp) :
    ∃ retTy rets,
      compile (fuel + 1) (.mk es ee (.binary l r .bracket)) scope st =
        .ok (retTy, scope2,
          { program := st2.program, store := st2.store,
            function := { st2.function with
              variableCount := st2.function.variableCount + imp.returnTy.size },
            block := { st2.block with
              insts := st2.block.insts ++
                [.call imp.function (Ty.getUsedVars argTy) rets] } }) ∧
      rets.length = imp.returnTy.size ∧
      Ty.mapTo imp.returnTy rets = some retTy := by
  obtain ⟨retTy, hmap⟩ := mapTo_ofSize imp.returnTy
    ((List.range imp.returnTy.size).map (fun i => Var.mk (st2.function.variableCount + i)))
    (by simp)
  refine ⟨retTy, _, ?_, by simp, hmap⟩
  simp only [compile, hl, bindOk]
  simp only [hr, bindOk, hfind, callFunction, Block.call, hmap]

/-- The implementation found by the scan in the C2 witness: an
`Int`-shaped parameter and return. -/
def c2wImp : Implementation := ⟨.int ⟨0⟩, .int ⟨0⟩, ⟨0⟩⟩

/-- The scope of the C2 witness: `f` bound to a `Func` on cell 0. -/
def c2wScope : Scope := [(['f'], Ty.func c2pat c2pat 0)]

/-- The initial state of the C2 witness: cell 0 already holds the
`Int`-shaped implementation. -/
def c2wSt : CompSt :=
  { program := ⟨[c2seedFn]⟩,
    function := (IRFunction.new.newBlock).2, block := (IRFunction.new.newBlock).1,
    store := [[c2wImp]] }

/-- The state after compiling the argument `1` of the C2 witness. -/
def c2wSt2 : CompSt :=
  { program := ⟨[c2seedFn]⟩,
    function := { params := [], returns := [], variableCount := 1,
                  blocks := [⟨[], .ret, 0⟩] },
    block := ⟨[.constantInt ⟨0⟩ 1], .ret, 0⟩,
    store := [[c2wImp]] }

/-- C2 (witness): the amended theorem applied to the call `f(1)` in a
state whose implementation list already contains an `Int`-shaped
implementation — the hypotheses are discharged by computation and the
call is compiled by reuse. -/
theorem c2_witness :
    compile 1 (pe (.ident ['f'])) c2wScope c2wSt =
      .ok (.func c2pat c2pat 0, c2wScope, c2wSt) ∧
    compile 1 (pe (.intLiteral ['1'])) c2wScope c2wSt =
      .ok (.int ⟨0⟩, c2wScope, c2wSt2) ∧
    (c2wSt2.store.getD 0 []).find? (fun i => tyBeq i.paramTy (.int ⟨0⟩)) = some c2wImp ∧
    (∃ retTy rets,
      compile (1 + 1) (.mk p0 p0 (.binary (pe (.ident ['f'])) (pe (.intLiteral ['1']))
          .bracket)) c2wScope c2wSt =
        .ok (retTy, c2wScope,
          { program := c2wSt2.program, store := c2wSt2.store,
            function := { c2wSt2.function with
              variableCount := c2wSt2.function.variableCount + c2wImp.returnTy.size },
            block := { c2wSt2.block with
              insts := c2wSt2.block.insts ++
                [.call c2wImp.function (Ty.getUsedVars (.int ⟨0⟩)) rets] } }) ∧
      rets.length = c2wImp.returnTy.size ∧
      Ty.mapTo c2wImp.returnTy rets = some retTy) :=
  ⟨rfl, rfl, rfl,
   c2_theorem 1 (pe (.ident ['f'])) (pe (.intLiteral ['1'])) p0 p0
     c2wScope c2wScope c2wScope c2wSt c2wSt c2wSt2 c2pat c2pat 0 (.int ⟨0⟩) c2wImp
     rfl rfl rfl⟩

/-! ### Lemmas for C4 -/

theorem incUse_length (u : List Int) (w : Var) : (incUse u w).length = u.length := by
  simp [incUse]

theorem incUse_getD (u : List Int) (w : Var) (v : Nat) (h : v < u.length) :
    (incUse u w).getD v 0 = u.getD v 0 + (if w.id = v then 1 else 0) := by
  by_cases hw : w.id = v
  · subst hw
    simp [incUse, List.getD_eq_getElem?_getD,
      List.getElem?_set_eq_of_lt _ (show w.id < u.length from h)]
  · simp [incUse, List.getD_eq_getElem?_getD, List.getElem?_set_ne hw, hw]

theorem foldlIncUse_spec (ws : List Var) (u : List Int) (v : Nat) (h : v < u.length) :
    (ws.foldl incUse u).getD v 0 =
      u.getD v 0 + ((ws.filter (fun w => w.id = v)).length : Int) ∧
    (ws.foldl incUse u).length = u.length := by
  induction ws generalizing u with
  | nil => simp
  | cons w ws ih =>
    simp only [List.foldl_cons]
    obtain ⟨ih1, ih2⟩ := ih (incUse u w) (by rw [incUse_length]; exact h)
    refine ⟨?_, by rw [ih2, incUse_length]⟩
    rw [ih1, incUse_getD u w v h]
    by_cases hw : w.id = v <;> simp [hw, List.filter_cons] <;> push_cast <;> ring

theorem countInstUses_spec (u : List Int) (inst : Instruction) (v : Nat) (h : v < u.length) :
    (countInstUses u inst).getD v 0 = u.getD v 0 + instUses v inst ∧
    (countInstUses u inst).length = u.length := by
  cases inst with
  | addInt d a b =>
    refine ⟨?_, by simp [countInstUses, incUse_length]⟩
    simp only [countInstUses, instUses]
    rw [incUse_getD _ b v (by rw [incUse_length]; exact h), incUse_getD _ a v h]
    ring
  | constantInt d k => simp [countInstUses, instUses]
  | phi cond a b d =>
    refine ⟨?_, by simp [countInstUses, incUse_length]⟩
    simp only [countInstUses, instUses]
    rw [incUse_getD _ b v (by rw [incUse_length, incUse_length]; exact h),
      incUse_getD _ a v (by rw [incUse_length]; exact h), incUse_getD _ cond v h]
    ring
  | call fid args rets =>
    simpa [countInstUses, instUses] using foldlIncUse_spec args u v h

theorem instsFold_spec (insts : List Instruction) (u : List Int) (v : Nat)
    (h : v < u.length) :
    (insts.foldl countInstUses u).getD v 0 = u.getD v 0 + (insts.map (instUses v)).sum ∧
    (insts.foldl countInstUses u).length = u.length := by
  induction insts generalizing u with
  | nil => simp
  | cons inst insts ih =>
    simp only [List.foldl_cons, List.map_cons, List.sum_cons]
    obtain ⟨h1, h2⟩ := countInstUses_spec u inst v h
    obtain ⟨ih1, ih2⟩ := ih (countInstUses u inst) (by rw [h2]; exact h)
    exact ⟨by rw [ih1, h1]; ring, by rw [ih2, h2]⟩

theorem countUsesInBlock_spec (b : Block) (u : List Int) (q : List BlockId) (v : Nat)
    (h : v < u.length) :
    (countUsesInBlock b u q).1.getD v 0 = u.getD v 0 + blockUses v b ∧
    (countUsesInBlock b u q).1.length = u.length ∧
    (countUsesInBlock b u q).2 = q ++ b.successors := by
  obtain ⟨h1, h2⟩ := instsFold_spec b.insts u v h
  cases hx : b.exit with
  | branch t =>
    refine ⟨?_, by simp [countUsesInBlock, hx, h2],
      by simp [countUsesInBlock, hx, Block.successors]⟩
    simp only [countUsesInBlock, hx, blockUses]
    rw [h1]
    ring
  | conditionalBranch cond t1 t2 =>
    refine ⟨?_, by simp [countUsesInBlock, hx, incUse_length, h2],
      by simp [countUsesInBlock, hx, Block.successors]⟩
    simp only [countUsesInBlock, hx, blockUses]
    rw [incUse_getD _ cond v (by rw [h2]; exact h), h1]
    ring
  | ret =>
    refine ⟨?_, by simp [countUsesInBlock, hx, h2],
      by simp [countUsesInBlock, hx, Block.successors]⟩
    simp only [countUsesInBlock, hx, blockUses]
    rw [h1]
    ring

theorem countUsesLoop_spec (f : IRFunction) (v : Nat) :
    ∀ (fuel : Nat) (q : List BlockId) (u : List Int) (L : List Nat),
    visitLoop fuel f q = some L → v < u.length →
    ∃ out, countUsesLoop fuel f u q = some out ∧
      out.getD v 0 = u.getD v 0 +
        (L.map (fun bid =>
          match f.getBlock ⟨bid⟩ with
          | some b => blockUses v b
          | none => 0)).sum ∧
      out.length = u.length := by
  intro fuel
  induction fuel with
  | zero => intro q u L hv; simp [visitLoop] at hv
  | succ fuel ih =>
    intro q u L hv hlen
    rw [visitLoop] at hv
    match hq : q.getLast? with
    | none =>
      simp only [hq] at hv
      obtain rfl : ([] : List Nat) = L := by simpa using hv
      exact ⟨u, by simp [countUsesLoop, hq], by simp, rfl⟩
    | some bid =>
      simp only [hq] at hv
      match hb : f.getBlock bid with
      | none => simp [hb] at hv
      | some b =>
        simp only [hb] at hv
        obtain ⟨L', hL', rfl⟩ : ∃ L', visitLoop fuel f (q.dropLast ++ b.successors) = some L' ∧
            bid.id :: L' = L := by
          rcases Option.map_eq_some'.mp hv with ⟨L', h1, h2⟩
          exact ⟨L', h1, h2⟩
        obtain ⟨hbu, hblen, hbq⟩ := countUsesInBlock_spec b u q.dropLast v hlen
        obtain ⟨out, hout, hsum, holen⟩ := ih (q.dropLast ++ b.successors)
          (countUsesInBlock b u q.dropLast).1 L'
          (hL') (by rw [hblen]; exact hlen)
        refine ⟨out, ?_, ?_, by rw [holen, hblen]⟩
        · rw [← hbq] at hout
          simp only [countUsesLoop, hq, hb]
          exact hout
        · rw [hsum, hbu]
          have : (⟨bid.id⟩ : BlockId) = bid := rfl
          simp only [List.map_cons, List.sum_cons, this, hb]
          ring

theorem getD_replicate (n v : Nat) (h : v < n) : (List.replicate n (0 : Int)).getD v 0 = 0 := by
  simp [List.getD_eq_getElem?_getD, List.getElem?_replicate, h]

/-- C4 (amended): the count computed by the forward pass equals, for
every variable of the function, the number of static uses summed over
the sequence of blocks the (visited-set-free) traversal pops — each
reachable block contributing once *per time it is reached*, so blocks
with several incoming paths contribute once per path — plus one use per
occurrence of the variable in the function's return list. -/
theorem c4_theorem (fuel : Nat) (f : IRFunction) (v : Nat) (L : List Nat)
    (hv : visitList fuel f = some L) (hlt : v < f.variableCount) :
    ∃ u, countUsesInFunction fuel f = some u ∧ u.getD v 0 = specUseCount f L v := by
  obtain ⟨out, hout, hgd, hlen⟩ := countUsesLoop_spec f v fuel [BlockId.mainBlock]
    (List.replicate f.variableCount 0) L hv (by simpa using hlt)
  refine ⟨f.returns.foldl incUse out, ?_, ?_⟩
  · rw [countUsesInFunction, hout]
  · obtain ⟨hr1, _⟩ := foldlIncUse_spec f.returns out v (by rw [hlen]; simpa using hlt)
    rw [hr1, hgd, getD_replicate _ _ hlt, specUseCount]
    ring

/-- C4 (witness): the amended theorem at the diamond function `c4f` and
variable `r1`: the traversal visits the join block twice, and the
computed count 4 equals the multiset sum (2 + 2) plus zero return
occurrences. -/
theorem c4_witness :
    visitList 10 c4f = some [0, 2, 3, 1, 3] ∧ 1 < c4f.variableCount ∧
    (∃ u, countUsesInFunction 10 c4f = some u ∧
      u.getD 1 0 = specUseCount c4f [0, 2, 3, 1, 3] 1) :=
  ⟨rfl, by decide, c4_theorem 10 c4f 1 [0, 2, 3, 1, 3] rfl (by decide)⟩
